import Mathlib

/-!
Verification of the starlight native/script value bridge.

The definitions below are shallow embeddings of the Go sources:
  * convert/conv.go        — scalar conversion (toValue / FromValue), makeOut
  * convert/map.go         — GoMap (associative view with freeze/iteration guards)
  * convert/slice.go       — GoSlice (sequential view, list methods, Python slicing)
  * convert/struct.go      — GoStruct (aggregate view over a pointer-backed struct)
  * cache.go               — the module-load cache with cycle detection

Go's reference semantics (maps, slices, pointers) are made explicit with a
heap: arrays are addressed by a natural number, a slice value is a header
(ref, off, len, cap) into an array, maps and structs are addressed objects.
Machine integers are modelled as Int/Nat with explicit ranges; float payloads
are modelled exactly (as rationals), which is faithful here because the bridge
only moves floats around (float32 → float64 widening is exact, no arithmetic
is performed on them).
-/

namespace Starlight

/-! ## Scalar values and widths (convert/conv.go) -/

/-- Signed integer widths of Go (`int` is 64-bit on the supported targets). -/
inductive IntW where
  | iw | i8 | i16 | i32 | i64
deriving DecidableEq, Repr

/-- Unsigned integer widths of Go (`uint` is 64-bit on the supported targets). -/
inductive UintW where
  | uw | u8 | u16 | u32 | u64
deriving DecidableEq, Repr

def IntW.bits : IntW → Nat
  | .iw => 64 | .i8 => 8 | .i16 => 16 | .i32 => 32 | .i64 => 64

def UintW.bits : UintW → Nat
  | .uw => 64 | .u8 => 8 | .u16 => 16 | .u32 => 32 | .u64 => 64

/-- A supported scalar native value: bools, strings, every signed and
unsigned integer width, float32 and float64.  Float payloads are exact. -/
inductive GoScalar where
  | gbool (b : Bool)
  | gstring (s : String)
  | gint (w : IntW) (n : Int)
  | guint (w : UintW) (n : Nat)
  | gfloat32 (q : ℚ)
  | gfloat64 (q : ℚ)
deriving DecidableEq, Repr

/-- Well-formedness: the integer payload fits the declared width. -/
def scalarWF : GoScalar → Bool
  | .gint w n => decide (-(2 ^ (w.bits - 1)) ≤ n) && decide (n < 2 ^ (w.bits - 1))
  | .guint w n => decide (n < 2 ^ w.bits)
  | _ => true

/-- The fragment of `starlark.Value` that the claims need.  `sstar` stands for
an opaque engine value (a wrapped interface, a builtin, …) that the bridge
passes through unconverted. -/
inductive SVal where
  | none
  | sbool (b : Bool)
  | sint (n : Int)
  | sfloat (q : ℚ)
  | sstr (s : String)
  | stuple (xs : List SVal)
  | sstar (tag : String)

/-- `toValue` restricted to the scalar kinds (conv.go:86-112).  Plain scalar
types carry no methods, so they reach the kind switch directly:
signed kinds go through `starlark.MakeInt64(val.Int())`, unsigned kinds
through `starlark.MakeUint64(val.Uint())` (both produce the same
arbitrary-precision starlark integer), floats through
`starlark.Float(val.Float())` (exact widening for float32). -/
def toValueScalar : GoScalar → SVal
  | .gbool b => .sbool b
  | .gstring s => .sstr s
  | .gint _ n => .sint n
  | .guint _ n => .sint (n : Int)
  | .gfloat32 q => .sfloat q
  | .gfloat64 q => .sfloat q

/-- The dynamic type of the Go `interface{}` that `FromValue` returns. -/
inductive GoDyn where
  | scalarD (s : GoScalar)
  | bigD (n : Int)
  | nilD
  | listD (xs : List GoDyn)
  | starD (tag : String)

mutual

/-- `FromValue` (conv.go:115-159).  starlark ints come back as `int64` when
they fit, else as `uint64` when they fit, else as a `*big.Int`; floats come
back as `float64`; `None` comes back as a nil interface; tuples convert
element-wise (`FromTuple`); unrecognized engine values pass through. -/
def FromValue : SVal → GoDyn
  | .none => .nilD
  | .sbool b => .scalarD (.gbool b)
  | .sint n =>
      if -(2 ^ 63) ≤ n ∧ n < 2 ^ 63 then .scalarD (.gint .i64 n)
      else if 0 ≤ n ∧ n < 2 ^ 64 then .scalarD (.guint .u64 n.toNat)
      else .bigD n
  | .sfloat q => .scalarD (.gfloat64 q)
  | .sstr s => .scalarD (.gstring s)
  | .stuple xs => .listD (fromValueList xs)
  | .sstar tag => .starD tag

/-- Element-wise conversion of a tuple (`FromTuple`). -/
def fromValueList : List SVal → List GoDyn
  | [] => []
  | x :: xs => FromValue x :: fromValueList xs

end

/-- The canonical form a well-formed scalar comes back as after a
`toValue` / `FromValue` round trip: every signed width and every unsigned
value below `2^63` canonicalizes to `int64`; unsigned values of at least
`2^63` canonicalize to `uint64`; `float32` widens to `float64`; bools and
strings are unchanged. -/
def scalarCanon : GoScalar → GoScalar
  | .gbool b => .gbool b
  | .gstring s => .gstring s
  | .gint _ n => .gint .i64 n
  | .guint _ n => if n < 2 ^ 63 then .gint .i64 (n : Int) else .guint .u64 n
  | .gfloat32 q => .gfloat64 q
  | .gfloat64 q => .gfloat64 q

/-! ## Function adapter result marshaling (conv.go: makeOut, 405-437) -/

/-- One return value of a wrapped native function, as seen by `makeOut`.
`errv` is a result whose *declared* type is `error` (`last.Type() == errType`
is a static-type test), carrying `Option.none` for a nil error and
`some msg` for a non-nil one.  `datav` is an ordinary convertible value;
`badv` is a value of an unsupported kind (e.g. a channel), for which
`toValue` fails with the named-type error. -/
inductive OutVal where
  | errv (e : Option String)
  | datav (s : GoScalar)
  | badv (tyName : String)
deriving Repr

/-- Conversion of one (non-last) output through `toValue`.  A non-last
`error`-typed value is converted through the interface-wrapper path
(`GoInterface`), opaque here. -/
def convOut : OutVal → Except String SVal
  | .errv _ => .ok (.sstar "error-interface")
  | .datav s => .ok (toValueScalar s)
  | .badv t => .error ("type " ++ t ++ " is not a supported starlark type")

/-- The loop in makeOut that converts the remaining outputs one by one,
stopping at the first conversion failure. -/
def convOuts : List OutVal → Except String (List SVal)
  | [] => .ok []
  | x :: xs =>
      match convOut x with
      | .error e => .error e
      | .ok v =>
          match convOuts xs with
          | .error e => .error e
          | .ok vs => .ok (v :: vs)

/-- `makeOut` (conv.go:405-437): split a trailing `error`-typed result off as
the script call's failure, then return the remaining results as `None`,
a single converted value, or a tuple.  The returned pair is
(starlark value, script-call error). -/
def makeOut (out : List OutVal) : SVal × Option String :=
  match out with
  | [] => (.none, Option.none)
  | _ =>
      let rest : List OutVal :=
        match out.getLast? with
        | some (.errv _) => out.dropLast
        | _ => out
      let err : Option String :=
        match out.getLast? with
        | some (.errv e) => e
        | _ => Option.none
      match rest with
      | [] => (.none, err)
      | [x] =>
          match convOut x with
          | .error e2 => (.none, some e2)
          | .ok v => (v, err)
      | xs =>
          match convOuts xs with
          | .error e3 => (.none, some e3)
          | .ok vs => (.stuple vs, err)

/-- The shape in which `makeOut` delivers the converted data results:
`None` when none remain, the single value when one remains, a tuple
otherwise. -/
def outShape : List SVal → SVal
  | [] => .none
  | [v] => v
  | vs => .stuple vs

/-! ## A heap of arrays, slice headers, and reflect primitives

Go slices are headers (array reference, offset, length, capacity) into
shared backing arrays; `reflect.Append` writes in place when capacity
permits and reallocates otherwise.  The heap makes this explicit so that
aliasing between a host slice and the view's rebound slice is a provable
fact rather than an assumption. -/

/-- A Go slice header. -/
structure SliceH where
  ref : Nat
  off : Nat
  len : Nat
  cap : Nat
deriving DecidableEq, Repr

/-- A heap of backing arrays, addressed by `Nat`; `next` is the next fresh
address.  Arrays are total functions (reads beyond an array's capacity
never happen in the verified operations). -/
structure Heap (α : Type) where
  mem : Nat → Nat → α
  next : Nat

/-- Write one array cell. -/
def Heap.write {α : Type} (h : Heap α) (r i : Nat) (x : α) : Heap α :=
  ⟨fun r' i' => if r' = r ∧ i' = i then x else h.mem r' i', h.next⟩

/-- The list of elements a slice header denotes. -/
def Heap.readS {α : Type} (h : Heap α) (s : SliceH) : List α :=
  List.ofFn fun i : Fin s.len => h.mem s.ref (s.off + i.val)

/-- `reflect.Value.Slice(a, b)`: same array, shifted window. -/
def SliceH.sub (s : SliceH) (a b : Nat) : SliceH :=
  ⟨s.ref, s.off + a, b - a, s.cap - a⟩

/-- `reflect.Copy(dst, src)`: copy `min dst.len src.len` elements with
memmove (as-if-buffered) semantics. -/
def Heap.copyTo {α : Type} (h : Heap α) (dst src : SliceH) : Heap α :=
  ⟨fun r i =>
      if r = dst.ref ∧ dst.off ≤ i ∧ i < dst.off + min dst.len src.len then
        h.mem src.ref (src.off + (i - dst.off))
      else h.mem r i,
    h.next⟩

/-- Allocate a fresh array holding `xs` (zero value `z` beyond), with
capacity `c`; models `reflect.MakeSlice` followed by the writes that fill
it. -/
def Heap.alloc {α : Type} (h : Heap α) (xs : List α) (c : Nat) (z : α) :
    Heap α × SliceH :=
  (⟨fun r i => if r = h.next then xs.getD i z else h.mem r i, h.next + 1⟩,
    ⟨h.next, 0, xs.length, c⟩)

/-- `reflect.Append(s, x)`: in place when spare capacity exists, otherwise
reallocate.  (The exact growth factor is internal to the Go runtime and
unobservable in the verified properties; we double.) -/
def Heap.append1 {α : Type} (h : Heap α) (s : SliceH) (x : α) (z : α) :
    Heap α × SliceH :=
  if s.len < s.cap then
    (h.write s.ref (s.off + s.len) x, ⟨s.ref, s.off, s.len + 1, s.cap⟩)
  else
    h.alloc (h.readS s ++ [x]) (2 * s.len + 1) z

/-- `reflect.AppendSlice(dst, src)`: in place when the destination's spare
capacity suffices, otherwise reallocate. -/
def Heap.appendSliceH {α : Type} (h : Heap α) (dst src : SliceH) (z : α) :
    Heap α × SliceH :=
  if dst.len + src.len ≤ dst.cap then
    (h.copyTo ⟨dst.ref, dst.off + dst.len, src.len, dst.cap - dst.len⟩ src,
      ⟨dst.ref, dst.off, dst.len + src.len, dst.cap⟩)
  else
    h.alloc (h.readS dst ++ h.readS src) (2 * (dst.len + src.len)) z

/-! ## The sequential view: GoSlice (convert/slice.go) -/

/-- `GoSlice`: a slice header plus the live-iterator count and the frozen
flag (slice.go:17-22). -/
structure GoSlice where
  v : SliceH
  numIt : Nat
  frozen : Bool
deriving DecidableEq, Repr

/-- `checkMutable` (slice.go:192-200): frozen first, then iteration. -/
def GoSlice.checkMutable (g : GoSlice) (verb : String) : Option String :=
  if g.frozen then some ("cannot " ++ verb ++ " frozen slice")
  else if 0 < g.numIt then some ("cannot " ++ verb ++ " slice during iteration")
  else Option.none

/-- `Freeze` (slice.go:51-53): sets the flag; nothing ever clears it. -/
def GoSlice.freeze (g : GoSlice) : GoSlice :=
  { g with frozen := true }

/-- `Iterate` (slice.go:123-128): bumps the live-iterator count. -/
def GoSlice.iterate (g : GoSlice) : GoSlice :=
  { g with numIt := g.numIt + 1 }

/-- `sliceIterator.Done` (slice.go:202-204): drops the count. -/
def GoSlice.iterDone (g : GoSlice) : GoSlice :=
  { g with numIt := g.numIt - 1 }

/-- `toInt` (slice.go:408-418): the argument must be a starlark int that is
representable as an int64.  (The Go error text renders the argument's type;
that rendering is elided here.) -/
def toInt : SVal → Except String Int
  | .sint n =>
      if -(2 ^ 63) ≤ n ∧ n < 2 ^ 63 then .ok n
      else .error "index not representable as int64"
  | _ => .error "index must be a number"

/-- `SetIndex` (slice.go:83-90): guard, convert, write through the backing
array.  `convE` is the element conversion `conv(v, elemType)`; the
interpreter guarantees `i < len`. -/
def GoSlice.setIndex {α : Type} (convE : SVal → α) (h : Heap α) (g : GoSlice)
    (i : Nat) (x : SVal) : Heap α × GoSlice × Except String Unit :=
  match g.checkMutable "assign to" with
  | some e => (h, g, .error e)
  | Option.none => (h.write g.v.ref (g.v.off + i) (convE x), g, .ok ())

/-- `Clear` (slice.go:67-73): guard, then rebind the header to
`g.v.Slice(0, 0)` — the heap itself is untouched. -/
def GoSlice.clear {α : Type} (h : Heap α) (g : GoSlice) :
    Heap α × GoSlice × Except String Unit :=
  match g.checkMutable "clear" with
  | some e => (h, g, .error e)
  | Option.none => (h, { g with v := ⟨g.v.ref, g.v.off, 0, g.v.cap⟩ }, .ok ())

/-- `list_append` (slice.go:207-217): guard, convert, rebind the header to
`reflect.Append(g.v, v)`. -/
def list_append {α : Type} (z : α) (convE : SVal → α) (h : Heap α)
    (g : GoSlice) (x : SVal) : Heap α × GoSlice × Except String Unit :=
  match g.checkMutable "append to" with
  | some e => (h, g, .error e)
  | Option.none =>
      let p := h.append1 g.v (convE x) z
      (p.1, { g with v := p.2 }, .ok ())

/-- `list_extend` (slice.go:228-248): guard, then append each element of the
iterable in order (the argument is modelled as the list of elements the
iterable yields). -/
def list_extend {α : Type} (z : α) (convE : SVal → α) (h : Heap α)
    (g : GoSlice) (xs : List SVal) : Heap α × GoSlice × Except String Unit :=
  match g.checkMutable "extend" with
  | some e => (h, g, .error e)
  | Option.none =>
      let p := xs.foldl (fun (acc : Heap α × SliceH) x =>
        Heap.append1 acc.1 acc.2 (convE x) z) (h, g.v)
      (p.1, { g with v := p.2 }, .ok ())

/-- `list_insert` (slice.go:280-308): guard, parse the index, add the
length if negative, then either append (index past the end) or append a
zero element, slide the tail up with `reflect.Copy`, and write the value;
a still-negative index clamps to 0. -/
def list_insert {α : Type} (z : α) (convE : SVal → α) (h : Heap α)
    (g : GoSlice) (idxArg : SVal) (x : SVal) :
    Heap α × GoSlice × Except String Unit :=
  match g.checkMutable "insert into" with
  | some e => (h, g, .error e)
  | Option.none =>
      match toInt idxArg with
      | .error e => (h, g, .error e)
      | .ok i0 =>
          let i1 : Int := if i0 < 0 then i0 + g.v.len else i0
          let v := convE x
          if (g.v.len : Int) ≤ i1 then
            let p := h.append1 g.v v z
            (p.1, { g with v := p.2 }, .ok ())
          else
            let i2 : Nat := (max i1 0).toNat
            let p := h.append1 g.v z z
            let h2 := p.1.copyTo (p.2.sub (i2 + 1) p.2.len) (p.2.sub i2 p.2.len)
            let h3 := h2.write p.2.ref (p.2.off + i2) v
            (h3, { g with v := p.2 }, .ok ())

/-- `list_remove` (slice.go:311-328): guard, convert, delete the first
structurally equal element by rebinding to
`reflect.AppendSlice(g.v[0:i], g.v[i+1:len])`.  (The Go error text renders
the missing value; that rendering is elided.) -/
def list_remove {α : Type} [DecidableEq α] (z : α) (convE : SVal → α)
    (h : Heap α) (g : GoSlice) (x : SVal) :
    Heap α × GoSlice × Except String Unit :=
  match g.checkMutable "remove from" with
  | some e => (h, g, .error e)
  | Option.none =>
      let v := convE x
      match (h.readS g.v).findIdx? (fun a => a = v) with
      | some i =>
          let p := h.appendSliceH (g.v.sub 0 i) (g.v.sub (i + 1) g.v.len) z
          (p.1, { g with v := p.2 }, .ok ())
      | Option.none => (h, g, .error "remove: element not found")

/-- `list_pop` (slice.go:331-358): the index argument is parsed and
bounds-checked *before* `checkMutable`; the popped element is read out
before the header is rebound. -/
def list_pop {α : Type} (z : α) (h : Heap α) (g : GoSlice)
    (arg : Option SVal) : Heap α × GoSlice × Except String α :=
  let idxE : Except String Int :=
    match arg with
    | Option.none => .ok ((g.v.len : Int) - 1)
    | some a => toInt a
  match idxE with
  | .error e => (h, g, .error e)
  | .ok i =>
      if i < 0 ∨ (g.v.len : Int) ≤ i then
        (h, g, .error ("pop: index " ++ toString i ++
          " is out of range [0:" ++ toString g.v.len ++ "]"))
      else
        match g.checkMutable "pop from" with
        | some e => (h, g, .error e)
        | Option.none =>
            let i' := i.toNat
            let res := h.mem g.v.ref (g.v.off + i')
            let p := h.appendSliceH (g.v.sub 0 i') (g.v.sub (i' + 1) g.v.len) z
            (p.1, { g with v := p.2 }, .ok res)

/-- `Slice(start, end, step)` (slice.go:92-105).  For `step = 1` a fresh
independent array of the selected elements is allocated
(`MakeSlice` + `Copy`).  For `step ≠ 1` the code calls
`reflect.MakeSlice(g.v.Type().Elem(), 0, 0)`: the *element* type is not a
slice type, so reflect panics ("reflect.MakeSlice of non-slice type"); when
the element type happens to be a slice type itself, the subsequent
`reflect.Append` of an element into it panics instead.  Either way the
strided branch faults before producing a value. -/
def GoSlice.slice {α : Type} (z : α) (h : Heap α) (g : GoSlice)
    (start stop step : Nat) : Except String (Heap α × GoSlice) :=
  if step = 1 then
    let p := h.alloc (List.replicate (stop - start) z) (stop - start) z
    let h2 := p.1.copyTo p.2 (g.v.sub start stop)
    .ok (h2, ⟨p.2, 0, false⟩)
  else
    .error "panic: reflect.MakeSlice of non-slice type"

/-! ## The associative view: GoMap (convert/map.go)

Go maps are reference types: the view's `reflect.Value` aliases the host's
map object.  The heap maps an address to an association list. -/

/-- A heap of map objects. -/
structure MHeap (κ α : Type) where
  mmem : Nat → List (κ × α)

/-- Set a key in an association list (replace the first binding or append). -/
def setA {κ α : Type} [DecidableEq κ] : List (κ × α) → κ → α → List (κ × α)
  | [], k, v => [(k, v)]
  | (k', v') :: l, k, v =>
      if k' = k then (k, v) :: l else (k', v') :: setA l k v

/-- Look a key up in an association list. -/
def lookupA {κ α : Type} [DecidableEq κ] : List (κ × α) → κ → Option α
  | [], _ => Option.none
  | (k', v') :: l, k => if k' = k then some v' else lookupA l k

/-- Delete a key from an association list. -/
def delA {κ α : Type} [DecidableEq κ] : List (κ × α) → κ → List (κ × α)
  | [], _ => []
  | (k', v') :: l, k => if k' = k then l else (k', v') :: delA l k

def MHeap.setEntry {κ α : Type} [DecidableEq κ] (h : MHeap κ α) (r : Nat)
    (k : κ) (v : α) : MHeap κ α :=
  ⟨fun r' => if r' = r then setA (h.mmem r) k v else h.mmem r'⟩

def MHeap.delEntry {κ α : Type} [DecidableEq κ] (h : MHeap κ α) (r : Nat)
    (k : κ) : MHeap κ α :=
  ⟨fun r' => if r' = r then delA (h.mmem r) k else h.mmem r'⟩

def MHeap.clearOut {κ α : Type} (h : MHeap κ α) (r : Nat) : MHeap κ α :=
  ⟨fun r' => if r' = r then [] else h.mmem r'⟩

/-- `GoMap`: the aliased map object plus the live-iterator count and the
frozen flag (map.go:19-23). -/
structure GoMap where
  ref : Nat
  numIt : Nat
  frozen : Bool
deriving DecidableEq, Repr

/-- `Freeze` (map.go:93-95). -/
def GoMap.freeze (g : GoMap) : GoMap :=
  { g with frozen := true }

/-- `Iterate` (map.go:181-187): bumps the count (and snapshots the keys,
which no verified property depends on). -/
def GoMap.iterate (g : GoMap) : GoMap :=
  { g with numIt := g.numIt + 1 }

/-- `mapIterator.Done` (map.go:253-255). -/
def GoMap.iterDone (g : GoMap) : GoMap :=
  { g with numIt := g.numIt - 1 }

/-- `SetKey` (map.go:36-61): frozen first, then iteration, then convert the
key and value (`conv`) and write into the aliased map object.  `convK` and
`convV` are the key/value conversions for the map's declared types. -/
def GoMap.setKey {κ α : Type} [DecidableEq κ] (convK : SVal → κ)
    (convV : SVal → α) (h : MHeap κ α) (g : GoMap) (k v : SVal) :
    MHeap κ α × GoMap × Except String Unit :=
  if g.frozen then (h, g, .error "cannot insert into frozen map")
  else if 0 < g.numIt then (h, g, .error "cannot insert into map during iteration")
  else (h.setEntry g.ref (convK k) (convV v), g, .ok ())

/-- `Delete` (map.go:122-145): frozen first, then iteration; a missing key
deletes nothing and reports not-found. -/
def GoMap.delete {κ α : Type} [DecidableEq κ] (convK : SVal → κ)
    (h : MHeap κ α) (g : GoMap) (k : SVal) :
    MHeap κ α × GoMap × Except String (Option α) :=
  if g.frozen then (h, g, .error "cannot delete from frozen map")
  else if 0 < g.numIt then (h, g, .error "cannot delete from map during iteration")
  else
    let key := convK k
    match lookupA (h.mmem g.ref) key with
    | Option.none => (h, g, .ok Option.none)
    | some v => (h.delEntry g.ref key, g, .ok (some v))

/-- `Clear` (map.go:109-120): frozen first, then iteration, then delete
every key of the aliased map object. -/
def GoMap.clearMap {κ α : Type} (h : MHeap κ α) (g : GoMap) :
    MHeap κ α × GoMap × Except String Unit :=
  if g.frozen then (h, g, .error "cannot clear frozen map")
  else if 0 < g.numIt then (h, g, .error "cannot clear map during iteration")
  else (h.clearOut g.ref, g, .ok ())

/-! ## The aggregate view: GoStruct (convert/struct.go)

A `GoStruct` over a pointer-backed struct aliases the host's struct object;
the heap maps an address to a total field assignment.  Struct fields of the
verified properties are scalar-typed. -/

/-- Go exportedness: the first rune of the name is upper-case. -/
def isExported (s : String) : Bool :=
  match s.toList with
  | [] => false
  | c :: _ => c.isUpper

/-- The scalar field types. -/
inductive GoTy where
  | tbool | tstring | tint (w : IntW) | tuint (w : UintW) | tfloat32 | tfloat64
deriving DecidableEq, Repr

/-- The static description of a struct type: its fields (name and type),
and its method names by receiver kind.  `reflect` exposes only exported
methods; a pointer-backed value sees both value- and pointer-receiver
methods. -/
structure StructTy where
  fields : List (String × GoTy)
  vmeths : List String
  pmeths : List String
deriving DecidableEq, Repr

/-- A heap of struct objects: a total field assignment per address. -/
structure SHeap where
  smem : Nat → String → GoScalar

/-- `GoStruct` (struct.go): the struct type and the aliased host address
(pointer-backed).  There is no frozen flag and no iterator count. -/
structure GoStruct where
  ty : StructTy
  addr : Nat
deriving DecidableEq, Repr

/-- `MethodByName` on the pointer-backed value: exported methods of either
receiver kind. -/
def methodByName (t : StructTy) (name : String) : Bool :=
  (t.vmeths.contains name || t.pmeths.contains name) && isExported name

/-- Field lookup by name in the struct type. -/
def lookupField : List (String × GoTy) → String → Option GoTy
  | [], _ => Option.none
  | (n, t) :: l, name => if n = name then some t else lookupField l name

/-- Two's-complement wrap of an integer to `bits` bits (what
`reflect.Value.Convert` does between integer types). -/
def wrapS (bits : Nat) (n : Int) : Int :=
  (n + 2 ^ (bits - 1)) % 2 ^ bits - 2 ^ (bits - 1)

/-- `SetField`'s conversion step (struct.go: `val.Convert(field.Type())`).
Like-kinded numeric conversions wrap to the target width; matching kinds
pass through.  The remaining `Convert` cases (float narrowing/rounding,
int↔float, int→string) are not exercised by any verified property; they
fall through to the struct's current zero value placeholder. -/
def fieldConv : GoTy → GoDyn → GoScalar
  | .tbool, .scalarD (.gbool b) => .gbool b
  | .tstring, .scalarD (.gstring s) => .gstring s
  | .tint w, .scalarD (.gint _ n) => .gint w (wrapS w.bits n)
  | .tint w, .scalarD (.guint _ n) => .gint w (wrapS w.bits (n : Int))
  | .tuint w, .scalarD (.gint _ n) => .guint w (n % (2 ^ w.bits : Int)).toNat
  | .tuint w, .scalarD (.guint _ n) => .guint w (n % 2 ^ w.bits)
  | .tfloat64, .scalarD (.gfloat64 q) => .gfloat64 q
  | .tfloat64, .scalarD (.gfloat32 q) => .gfloat64 q
  | .tfloat32, .scalarD (.gfloat32 q) => .gfloat32 q
  | _, _ => .gbool false

/-- `Attr` (struct.go / conv.go:1061-1079): bound method first; then a
field by name.  A found *unexported* field reaches
`toValue(field)`, whose `val.Interface()` call panics and is recovered into
an error (conv.go:42-47) — the value is never produced.  A missing name
yields `(nil, nil)`. -/
def GoStruct.attr (h : SHeap) (g : GoStruct) (name : String) :
    Except String (Option SVal) :=
  if methodByName g.ty name then .ok (some (.sstar ("method " ++ name)))
  else
    match lookupField g.ty.fields name with
    | Option.none => .ok Option.none
    | some _ =>
        if isExported name then .ok (some (toValueScalar (h.smem g.addr name)))
        else .error "panic recovered: cannot interface unexported field"

/-- `AttrNames` (struct.go / conv.go:1082-1108), pointer-backed branch:
the exported methods of the pointer type, then *all* field names of the
element type, then the exported methods of the element type.  (`reflect`
returns method names in sorted order; only membership matters here.) -/
def GoStruct.attrNames (g : GoStruct) : List String :=
  ((g.ty.vmeths ++ g.ty.pmeths).filter (fun n => isExported n))
    ++ g.ty.fields.map Prod.fst
    ++ (g.ty.vmeths.filter (fun n => isExported n))

/-- `SetField` (struct.go / conv.go:1111-1127): convert the incoming value
with `FromValue`, look the field up, and assign through the aliased
pointer when the field is settable (`CanSet`: present and exported on a
pointer-backed struct); otherwise fail without assigning. -/
def GoStruct.setField (h : SHeap) (g : GoStruct) (name : String) (val : SVal) :
    SHeap × Except String Unit :=
  let i := FromValue val
  match lookupField g.ty.fields name with
  | Option.none => (h, .error (name ++ " is not a settable field"))
  | some fty =>
      if isExported name then
        (⟨fun a n => if a = g.addr ∧ n = name then fieldConv fty i
            else h.smem a n⟩, .ok ())
      else (h, .error (name ++ " is not a settable field"))

/-- `Freeze` (struct.go / conv.go:1140-1146): `func (s *GoStruct) Freeze() {}`
— a no-op. -/
def GoStruct.freeze (g : GoStruct) : GoStruct := g

/-- Iterated application of `GoStruct.freeze`. -/
def GoStruct.freezeN : Nat → GoStruct → GoStruct
  | 0, g => g
  | n + 1, g => GoStruct.freezeN n g.freeze

/-! ## The module-load cache with cycle detection (cache.go)

The claims concern a single top-level `Load`, so the model is the
sequential projection of the cache: there is one cycle-checker token, an
entry's `owner` pointer is a flag ("currently being loaded by this
checker"), and `cycleCheck`'s owner-chain walk degenerates to exactly that
flag (the single checker never waits while it runs).  In this projection an
entry whose owner is cleared is ready, so waiting on it returns its stored
result immediately.  Load recursion is fuelled: running out of fuel stands
for a non-terminating run. -/

/-- Errors of the load machinery.  `wrap m e` is the `ExecFile` failure
"cannot load m: e" a module reports when loading its dependency `m` failed;
`fuelOut` marks fuel exhaustion (non-termination). -/
inductive LoadErr where
  | cycle
  | fuelOut
  | wrap (m : String) (e : LoadErr)
deriving DecidableEq, Repr

/-- The root cause of a load error, below all `wrap` layers. -/
def LoadErr.root : LoadErr → LoadErr
  | .wrap _ e => e.root
  | .cycle => .cycle
  | .fuelOut => .fuelOut

/-- A cache entry (cache.go:529-534): the owner flag and, once ready, the
stored outcome (a module's globals are abstracted to `Unit`). -/
structure Entry where
  owner : Bool
  res : Except LoadErr Unit
deriving Repr

/-- The cache's entry map, newest binding first. -/
def CState : Type := List (String × Entry)

/-- Entry lookup. -/
def lookE : CState → String → Option Entry
  | [], _ => Option.none
  | (k, e) :: st, m => if k = m then some e else lookE st m

/-- Entry insertion/overwrite (newest binding shadows). -/
def setE (st : CState) (m : String) (e : Entry) : CState :=
  (m, e) :: st

mutual

/-- `cache.get` (cache.go:553-583), sequential projection.  A present entry
still being loaded by this checker is exactly the situation in which
`cycleCheck` finds the owner chain leading back to the requesting waiter
and fails with the cycle error; a present finished entry is ready and its
stored outcome is returned.  A missing entry is created owned, the module's
dependencies are loaded (`doLoad` / `ExecFile`), and the entry is finalized
with the outcome. -/
def get (g : String → List String) : Nat → CState → String →
    CState × Except LoadErr Unit
  | 0, st, _ => (st, .error .fuelOut)
  | fuel + 1, st, m =>
      match lookE st m with
      | some e => if e.owner then (st, .error .cycle) else (st, e.res)
      | Option.none =>
          let st1 := setE st m ⟨true, .ok ()⟩
          let p := loadList g fuel st1 (g m)
          (setE p.1 m ⟨false, p.2⟩, p.2)
termination_by fuel _ _ => (fuel, 0)

/-- The loads a module's execution performs, in order; the first failing
load aborts the module with the wrapped error (`ExecFile` stops at the
failing `load` statement). -/
def loadList (g : String → List String) : Nat → CState → List String →
    CState × Except LoadErr Unit
  | _, st, [] => (st, .ok ())
  | fuel, st, d :: ds =>
      match get g fuel st d with
      | (st', .ok _) => loadList g fuel st' ds
      | (st', .error e) => (st', .error (.wrap d e))
termination_by fuel _ ds => (fuel, ds.length + 1)

end

/-- `cache.Load` (cache.go:536-538): a fresh cycle checker, one top-level
request. -/
def cacheLoad (g : String → List String) (fuel : Nat) (m : String) :
    Except LoadErr Unit :=
  (get g fuel [] m).2

/-! ## Demo instances used by witnesses and counterexamples -/

/-- Demo element conversion for `[]int` slices. -/
def convToInt : SVal → Int
  | .sint n => n
  | _ => 0

/-- Demo key conversion for `map[string]T`. -/
def convToStr : SVal → String
  | .sstr s => s
  | _ => ""

/-- A heap whose array 0 holds `[10, 20, 30]`. -/
def heap3 : Heap Int :=
  ⟨fun r i => if r = 0 then (if i = 0 then 10 else if i = 1 then 20 else if i = 2 then 30 else 0) else 0, 1⟩

/-- The host's header for the `[]int{10, 20, 30}` slice in `heap3`. -/
def host3 : SliceH := ⟨0, 0, 3, 3⟩

/-- A map heap whose object 0 holds `map[string]int{"a": 1}`. -/
def mheap1 : MHeap String Int :=
  ⟨fun r => if r = 0 then [("a", 1)] else []⟩

/-- The struct type of `type mega struct { Name string; count int }` with no
methods: one exported and one unexported field. -/
def billTy : StructTy := ⟨[("Name", .tstring), ("count", .tint .iw)], [], []⟩

/-- A struct heap whose object 0 is `{Name: "bill", count: 0}`. -/
def billHeap : SHeap :=
  ⟨fun a n => if a = 0 ∧ n = "Name" then .gstring "bill" else .gint .iw 0⟩

/-- The cyclic module graph: "a" loads "b" and "b" loads "a". -/
def gAB : String → List String :=
  fun s => if s = "a" then ["b"] else if s = "b" then ["a"] else []

/-- Invariant tying a fold of `reflect.Append` steps to the host's original
header `s0`: the heap's fresh-address bound covers both headers, and the
current header either still is the host's array with the same offset and at
least the host's length, or has moved to a different (freshly allocated)
array. -/
def ExtInv {α : Type} (s0 : SliceH) (h : Heap α) (s : SliceH) : Prop :=
  s0.ref < h.next ∧ s.ref < h.next ∧
    ((s.ref = s0.ref ∧ s.off = s0.off ∧ s0.len ≤ s.len) ∨ s.ref ≠ s0.ref)

/-! ## Cache-run analysis predicates -/

/-- A load outcome is "good" when any failure it reports is rooted in the
cycle error (in particular it is never rooted in fuel exhaustion). -/
def GoodErr (r : Except LoadErr Unit) : Prop :=
  ∀ e, r = Except.error e → e.root = LoadErr.cycle

/-- Every entry stored in the cache has a good outcome. -/
def GoodSt (st : CState) : Prop :=
  ∀ x en, lookE st x = some en → GoodErr en.res

/-- No module of the cycle `m :: p` is ever stored as finished-ok: a stored
cycle member is either still owned or finished with a cycle-rooted error. -/
def NoCycOk (m : String) (p : List String) (st : CState) : Prop :=
  ∀ c, c ∈ m :: p → ∀ en, lookE st c = some en →
    en.owner = true ∨ ∃ e, en.res = Except.error e ∧ e.root = LoadErr.cycle

/-- The second cache state holds an entry wherever the first does. -/
def Extends (st st' : CState) : Prop :=
  ∀ x en, lookE st x = some en → ∃ en', lookE st' x = some en'

/-- How many of the modules in `R` have no cache entry yet. -/
def missing (R : List String) (st : CState) : Nat :=
  (R.filter (fun x => (lookE st x).isNone)).length

/-- Common postcondition of a `get`/`loadList` step started in `st`. -/
abbrev CachePost (m : String) (p R : List String) (st : CState)
    (out : CState × Except LoadErr Unit) : Prop :=
  NoCycOk m p out.1 ∧ GoodSt out.1 ∧ Extends st out.1 ∧
    missing R out.1 ≤ missing R st ∧ GoodErr out.2

/-- Induction statement for `get` at a given fuel. -/
abbrev GetPost (g : String → List String) (m : String) (p R : List String)
    (fuel : Nat) : Prop :=
  ∀ st x, NoCycOk m p st → GoodSt st → x ∈ R → missing R st < fuel →
    CachePost m p R st (get g fuel st x) ∧
      (x ∈ m :: p →
        ∃ e, (get g fuel st x).2 = Except.error e ∧ e.root = LoadErr.cycle)

/-- Induction statement for `loadList` at a given fuel. -/
abbrev LoadPost (g : String → List String) (m : String) (p R : List String)
    (fuel : Nat) : Prop :=
  ∀ st ds, NoCycOk m p st → GoodSt st → (∀ d ∈ ds, d ∈ R) →
    missing R st < fuel →
    CachePost m p R st (loadList g fuel st ds) ∧
      ((∃ d, d ∈ ds ∧ d ∈ m :: p) →
        ∃ e, (loadList g fuel st ds).2 = Except.error e ∧
          e.root = LoadErr.cycle)

/-! # Theorems -/

/-! ## Helper lemmas about slice reads and reflect primitives -/

theorem readS_length {α : Type} (h : Heap α) (s : SliceH) :
    (h.readS s).length = s.len := by
  simp [Heap.readS]

theorem readS_getElem {α : Type} (h : Heap α) (s : SliceH) (i : Nat)
    (hi : i < (h.readS s).length) :
    (h.readS s)[i] = h.mem s.ref (s.off + i) := by
  simp [Heap.readS]

/-- Two heap/header pairs read the same list when they agree elementwise. -/
theorem readS_ext {α : Type} (h1 h2 : Heap α) (s1 s2 : SliceH)
    (hlen : s1.len = s2.len)
    (he : ∀ i, i < s1.len →
      h1.mem s1.ref (s1.off + i) = h2.mem s2.ref (s2.off + i)) :
    h1.readS s1 = h2.readS s2 := by
  apply List.ext_getElem
  · rw [readS_length, readS_length, hlen]
  · intro k hk1 hk2
    rw [readS_getElem, readS_getElem]
    apply he
    rw [readS_length] at hk1
    exact hk1

theorem write_mem {α : Type} (h : Heap α) (r i : Nat) (x : α) (r' i' : Nat) :
    (h.write r i x).mem r' i' = if r' = r ∧ i' = i then x else h.mem r' i' := rfl

theorem write_next {α : Type} (h : Heap α) (r i : Nat) (x : α) :
    (h.write r i x).next = h.next := rfl

/-- A write outside a header's window does not change what it reads. -/
theorem readS_write_outside {α : Type} (h : Heap α) (s : SliceH) (r j : Nat)
    (x : α) (hout : r ≠ s.ref ∨ j < s.off ∨ s.off + s.len ≤ j) :
    (h.write r j x).readS s = h.readS s := by
  apply readS_ext _ _ _ _ rfl
  intro i hi
  rw [write_mem, if_neg]
  rintro ⟨hr, hj⟩
  rcases hout with h3 | h3 | h3
  · exact h3 hr.symm
  · omega
  · omega

/-- A write inside a header's window sets the corresponding element. -/
theorem readS_write_inside {α : Type} (h : Heap α) (s : SliceH) (i : Nat)
    (x : α) (hi : i < s.len) :
    (h.write s.ref (s.off + i) x).readS s = (h.readS s).set i x := by
  apply List.ext_getElem
  · simp [Heap.readS]
  · intro k hk1 hk2
    rw [List.getElem_set, readS_getElem, write_mem]
    rw [readS_length] at hk1
    by_cases hki : i = k
    · subst hki
      rw [if_pos rfl, if_pos ⟨rfl, rfl⟩]
    · rw [if_neg hki, if_neg, readS_getElem]
      rintro ⟨-, hj⟩
      omega

theorem alloc_mem {α : Type} (h : Heap α) (xs : List α) (c : Nat) (z : α)
    (r i : Nat) :
    (h.alloc xs c z).1.mem r i =
      if r = h.next then xs.getD i z else h.mem r i := rfl

theorem alloc_next {α : Type} (h : Heap α) (xs : List α) (c : Nat) (z : α) :
    (h.alloc xs c z).1.next = h.next + 1 := rfl

theorem alloc_hdr {α : Type} (h : Heap α) (xs : List α) (c : Nat) (z : α) :
    (h.alloc xs c z).2 = ⟨h.next, 0, xs.length, c⟩ := rfl

/-- Allocation does not change what an existing header reads. -/
theorem readS_alloc_old {α : Type} (h : Heap α) (xs : List α) (c : Nat)
    (z : α) (s : SliceH) (hs : s.ref < h.next) :
    (h.alloc xs c z).1.readS s = h.readS s := by
  apply readS_ext _ _ _ _ rfl
  intro i hi
  rw [alloc_mem, if_neg]
  omega

/-- The fresh header reads back exactly the allocated contents. -/
theorem readS_alloc_new {α : Type} (h : Heap α) (xs : List α) (c : Nat)
    (z : α) : (h.alloc xs c z).1.readS (h.alloc xs c z).2 = xs := by
  apply List.ext_getElem
  · rw [readS_length, alloc_hdr]
  · intro k hk1 hk2
    rw [readS_getElem, alloc_hdr]
    simp only [alloc_mem, if_pos rfl]
    rw [readS_length, alloc_hdr] at hk1
    simp [List.getD_eq_getElem, hk1]

/-- `reflect.Append` yields a slice that reads the old elements plus the
appended one, in both the in-place and the reallocating branch. -/
theorem readS_append1_new {α : Type} (h : Heap α) (s : SliceH) (x z : α) :
    (h.append1 s x z).1.readS (h.append1 s x z).2 = h.readS s ++ [x] := by
  unfold Heap.append1
  by_cases hc : s.len < s.cap
  · rw [if_pos hc]
    apply List.ext_getElem
    · simp [Heap.readS]
    · intro k hk1 hk2
      rw [readS_length] at hk1
      dsimp only at hk1 ⊢
      rw [readS_getElem]
      dsimp only
      rw [write_mem]
      by_cases hk : k = s.len
      · subst hk
        rw [if_pos ⟨rfl, rfl⟩, List.getElem_append_right]
        · simp
        · rw [readS_length]
      · rw [if_neg, List.getElem_append_left, readS_getElem]
        · rw [readS_length]
          omega
        · rintro ⟨-, hj⟩
          omega
  · rw [if_neg hc]
    exact readS_alloc_new h _ _ z

/-- `reflect.Append` never disturbs what another header with the same
offset but no greater length (or a different array) reads. -/
theorem readS_append1_old {α : Type} (h : Heap α) (s : SliceH) (x z : α)
    (t : SliceH) (ht : t.ref < h.next)
    (hsame : t.ref ≠ s.ref ∨ (t.ref = s.ref ∧ t.off = s.off ∧ t.len ≤ s.len)) :
    (h.append1 s x z).1.readS t = h.readS t := by
  unfold Heap.append1
  by_cases hc : s.len < s.cap
  · rw [if_pos hc]
    apply readS_write_outside
    rcases hsame with h1 | ⟨h1, h2, h3⟩
    · exact Or.inl (fun he => h1 he.symm)
    · right; right
      omega
  · rw [if_neg hc]
    exact readS_alloc_old h _ _ z t ht

theorem append1_next {α : Type} (h : Heap α) (s : SliceH) (x z : α) :
    h.next ≤ (h.append1 s x z).1.next := by
  unfold Heap.append1
  by_cases hc : s.len < s.cap
  · rw [if_pos hc]
    exact Nat.le_refl _
  · rw [if_neg hc, alloc_next]
    omega

theorem copyTo_mem {α : Type} (h : Heap α) (dst src : SliceH) (r i : Nat) :
    (h.copyTo dst src).mem r i =
      if r = dst.ref ∧ dst.off ≤ i ∧ i < dst.off + min dst.len src.len then
        h.mem src.ref (src.off + (i - dst.off))
      else h.mem r i := rfl

theorem copyTo_next {α : Type} (h : Heap α) (dst src : SliceH) :
    (h.copyTo dst src).next = h.next := rfl

/-- `reflect.AppendSlice(s[0:i], s[i+1:len])` — the deletion step of
`list_remove`/`list_pop` — takes the in-place branch and shifts the tail
down inside the shared backing array; the rebound header reads the list
with element `i` removed. -/
theorem appendSlice_erase {α : Type} (h : Heap α) (s : SliceH) (i : Nat)
    (z : α) (hi : i < s.len) (hc : s.len ≤ s.cap) :
    (h.appendSliceH (s.sub 0 i) (s.sub (i + 1) s.len) z).2 =
        ⟨s.ref, s.off, s.len - 1, s.cap⟩ ∧
      (h.appendSliceH (s.sub 0 i) (s.sub (i + 1) s.len) z).1.readS
          ⟨s.ref, s.off, s.len - 1, s.cap⟩ = (h.readS s).eraseIdx i := by
  have hbr : (s.sub 0 i).len + (s.sub (i + 1) s.len).len ≤ (s.sub 0 i).cap := by
    simp only [SliceH.sub]
    omega
  unfold Heap.appendSliceH
  rw [if_pos hbr]
  constructor
  · simp only [SliceH.sub, SliceH.mk.injEq, true_and]
    omega
  · apply List.ext_getElem
    · rw [readS_length, List.length_eraseIdx, readS_length, if_pos hi]
    · intro k hk1 hk2
      have hk1' : k < s.len - 1 := by
        rw [readS_length] at hk1
        exact hk1
      rw [readS_getElem]
      dsimp only
      rw [copyTo_mem]
      simp only [SliceH.sub, true_and]
      by_cases hki : k < i
      · rw [List.getElem_eraseIdx_of_lt _ _ _ hk2 hki, readS_getElem,
          if_neg (by omega)]
      · rw [List.getElem_eraseIdx_of_ge _ _ _ hk2 (by omega),
          readS_getElem _ _ _ (by rw [readS_length]; omega),
          if_pos (by omega)]
        congr 1
        omega

/-- The slide-up-and-write step of `list_insert` (a `reflect.Copy` of the
tail one position up inside the same array, then the element write): the
header reads the list with `v` inserted at position `i`, the previous last
element having been overwritten by the slide. -/
theorem copy_slide_up {α : Type} (h : Heap α) (s : SliceH) (i : Nat) (v : α)
    (hi : i < s.len) :
    ((h.copyTo (s.sub (i + 1) s.len) (s.sub i s.len)).write s.ref (s.off + i)
        v).readS s =
      (h.readS s).take i ++ v :: ((h.readS s).dropLast.drop i) := by
  have htk : ((h.readS s).take i).length = i := by
    rw [List.length_take, readS_length]
    omega
  apply List.ext_getElem
  · rw [readS_length]
    simp only [List.length_append, List.length_take, List.length_cons,
      List.length_drop, List.length_dropLast, readS_length]
    omega
  · intro k hk1 hk2
    have hk1' : k < s.len := by
      rw [readS_length] at hk1
      exact hk1
    rw [readS_getElem, write_mem, copyTo_mem]
    simp only [SliceH.sub, true_and]
    rcases Nat.lt_trichotomy k i with hki | hki | hki
    · rw [List.getElem_append_left (show k < ((h.readS s).take i).length from
          by rw [htk]; exact hki), List.getElem_take, readS_getElem,
        if_neg (by omega), if_neg (by omega)]
    · subst hki
      rw [List.getElem_append_right (show ((h.readS s).take k).length ≤ k from
          by rw [htk]), List.getElem_cons, dif_pos (by omega),
        if_pos (by omega)]
    · rw [List.getElem_append_right (show ((h.readS s).take i).length ≤ k from
          by rw [htk]; omega), List.getElem_cons, dif_neg (by omega),
        List.getElem_drop, List.getElem_dropLast,
        readS_getElem _ _ _ (by rw [readS_length]; omega),
        if_neg (by omega), if_pos (by omega)]
      congr 1
      omega

/-- One `reflect.Append` step preserves the extend invariant and leaves the
host's view of its original header untouched. -/
theorem append1_ExtInv {α : Type} (s0 : SliceH) (h : Heap α) (s : SliceH)
    (x z : α) (hinv : ExtInv s0 h s) :
    ExtInv s0 (h.append1 s x z).1 (h.append1 s x z).2 ∧
      (h.append1 s x z).1.readS s0 = h.readS s0 := by
  obtain ⟨h0, h1, h2⟩ := hinv
  constructor
  · unfold Heap.append1 ExtInv
    by_cases hc : s.len < s.cap
    · rw [if_pos hc]
      dsimp only
      rw [write_next]
      refine ⟨h0, h1, ?_⟩
      rcases h2 with ⟨ha, hb, hd⟩ | ha
      · exact Or.inl ⟨ha, hb, by omega⟩
      · exact Or.inr ha
    · rw [if_neg hc]
      rw [alloc_next, alloc_hdr]
      dsimp only
      refine ⟨by omega, by omega, ?_⟩
      right
      omega
  · apply readS_append1_old
    · exact h0
    · rcases h2 with ⟨ha, hb, hd⟩ | ha
      · right
        refine ⟨?_, ?_, ?_⟩ <;> omega
      · left
        omega

/-! ## C1: scalar round trip -/

/-- C1 (corrected): for every well-formed supported scalar `v`, the round
trip `FromValue (toValue v)` yields the *canonical form* `scalarCanon v`:
the value is preserved, but every signed width comes back as `int64`,
unsigned values below `2^63` come back as `int64` and larger ones as
`uint64`, and `float32` comes back as `float64`.  The round trip is the
identity exactly on bools, strings, `int64`, `float64`, and `uint64`
values of at least `2^63`. -/
theorem claim1_scalar_roundtrip_canonical (v : GoScalar)
    (hwf : scalarWF v = true) :
    FromValue (toValueScalar v) = GoDyn.scalarD (scalarCanon v) := by
  cases v with
  | gbool b => rfl
  | gstring s => rfl
  | gfloat32 q => rfl
  | gfloat64 q => rfl
  | gint w n =>
      cases w <;>
        · simp only [scalarWF, IntW.bits, Bool.and_eq_true,
            decide_eq_true_eq] at hwf
          simp only [toValueScalar, FromValue, scalarCanon]
          rw [if_pos (by omega)]
  | guint w n =>
      cases w <;>
        · simp only [scalarWF, UintW.bits, decide_eq_true_eq] at hwf
          simp only [toValueScalar, FromValue, scalarCanon]
          by_cases hn : n < 2 ^ 63
          · rw [if_pos (by push_cast; omega), if_pos hn]
          · rw [if_neg (by push_cast; omega), if_pos (by push_cast; omega),
              if_neg hn]
            simp

/-- Witness for C1's theorem at the concrete input `int8(3)`. -/
theorem claim1_scalar_roundtrip_canonical_witness :
    scalarWF (GoScalar.gint .i8 3) = true ∧
      FromValue (toValueScalar (GoScalar.gint .i8 3)) =
        GoDyn.scalarD (scalarCanon (GoScalar.gint .i8 3)) :=
  ⟨by decide, claim1_scalar_roundtrip_canonical (GoScalar.gint .i8 3) (by decide)⟩

/-- C1 counterexample: for `v = int8(1)` the round trip returns `int64(1)`,
which is not the same Go value as `int8(1)` — the claim
`FromValue (ToValue v) == v` with the same Go type fails. -/
theorem claim1_counterexample :
    toValueScalar (GoScalar.gint .i8 1) = SVal.sint 1 ∧
      FromValue (SVal.sint 1) = GoDyn.scalarD (GoScalar.gint .i64 1) ∧
      FromValue (toValueScalar (GoScalar.gint .i8 1)) ≠
        GoDyn.scalarD (GoScalar.gint .i8 1) := by
  refine ⟨rfl, ?_, ?_⟩
  · norm_num [FromValue]
  · norm_num [FromValue, toValueScalar]
    decide

/-! ## C5: Python-style slicing -/

/-- C5 (code bug): `GoSlice.Slice` with a stride other than 1 calls
`reflect.MakeSlice(g.v.Type().Elem(), 0, 0)` — the element type, not the
slice type — so the call panics instead of returning the independent copy
the spec (and the code's own "python slices are copies" comment) promise.
Evaluated at the failing input: the slice `[]int{10,20,30}` with
`Slice(0, 3, 2)`. -/
theorem claim5_strided_slice_panics :
    GoSlice.slice (0 : Int) heap3 ⟨host3, 0, false⟩ 0 3 2 =
      .error "panic: reflect.MakeSlice of non-slice type" := rfl

/-! ## C6: trailing error split in the function adapter -/

theorem convOuts_datav (ds : List GoScalar) :
    convOuts (ds.map OutVal.datav) = .ok (ds.map toValueScalar) := by
  induction ds with
  | nil => rfl
  | cons d ds ih => simp [convOuts, convOut, ih]

theorem getLast?_cons_concat {α : Type} (x a : α) (l : List α) :
    (x :: (l ++ [a])).getLast? = some a := by
  rw [← List.cons_append, List.getLast?_concat]

theorem dropLast_cons_concat {α : Type} (x a : α) (l : List α) :
    (x :: (l ++ [a])).dropLast = x :: l := by
  rw [← List.cons_append, List.dropLast_concat]

/-- C6 (confirmed): for a native function whose last declared result is of
type `error`, `makeOut` surfaces that result as the script call's failure
(`some msg` for a non-nil error, `Option.none` for nil) and never as data;
the remaining results come back as `None` when none remain, as the single
converted value when one remains, and as a tuple preserving declaration
order otherwise. -/
theorem claim6_error_split (ds : List GoScalar) (e : Option String) :
    makeOut (ds.map OutVal.datav ++ [OutVal.errv e]) =
      (outShape (ds.map toValueScalar), e) := by
  cases ds with
  | nil => simp [makeOut, outShape]
  | cons d ds =>
      cases ds with
      | nil => simp [makeOut, outShape, convOut]
      | cons d2 ds2 =>
          have hco := convOuts_datav (d :: d2 :: ds2)
          simp only [List.map_cons] at hco
          simp [makeOut, outShape, getLast?_cons_concat,
            dropLast_cons_concat, hco]

/-! ## C8: unexported struct fields -/

/-- C8 (corrected): `Attr` never returns an unexported field's value (the
recovered `Interface()` panic surfaces as an error), and `SetField` on an
unexported name fails without assigning; `AttrNames`, however, *does* list
unexported field names — it iterates all fields of the struct type with no
exportedness filter. -/
theorem claim8_unexported_fields :
    (∀ (sh : SHeap) (g : GoStruct) (name : String) (fty : GoTy),
        methodByName g.ty name = false →
        lookupField g.ty.fields name = some fty →
        isExported name = false →
        GoStruct.attr sh g name =
          .error "panic recovered: cannot interface unexported field") ∧
      (∀ (sh : SHeap) (g : GoStruct) (name : String) (v : SVal),
        isExported name = false →
        GoStruct.setField sh g name v =
          (sh, .error (name ++ " is not a settable field"))) ∧
      (∀ (g : GoStruct) (name : String),
        name ∈ g.ty.fields.map Prod.fst → name ∈ GoStruct.attrNames g) := by
  refine ⟨?_, ?_, ?_⟩
  · intro sh g name fty hm hf hx
    simp [GoStruct.attr, hm, hf, hx]
  · intro sh g name v hx
    cases hlf : lookupField g.ty.fields name <;>
      simp [GoStruct.setField, hlf, hx]
  · intro g name hmem
    simp only [GoStruct.attrNames, List.mem_append]
    exact Or.inl (Or.inr hmem)

/-- Witness for C8's theorem at the struct type
`{Name string; count int}`: the unexported field `count`. -/
theorem claim8_unexported_fields_witness :
    (methodByName billTy "count" = false ∧
        lookupField billTy.fields "count" = some (.tint .iw) ∧
        isExported "count" = false ∧
        "count" ∈ billTy.fields.map Prod.fst) ∧
      GoStruct.attr billHeap ⟨billTy, 0⟩ "count" =
        .error "panic recovered: cannot interface unexported field" ∧
      GoStruct.setField billHeap ⟨billTy, 0⟩ "count" (.sint 5) =
        (billHeap, .error ("count" ++ " is not a settable field")) ∧
      "count" ∈ GoStruct.attrNames ⟨billTy, 0⟩ :=
  ⟨⟨by decide, by decide, by decide, by decide⟩,
    claim8_unexported_fields.1 billHeap ⟨billTy, 0⟩ "count" (.tint .iw)
      (by decide) (by decide) (by decide),
    claim8_unexported_fields.2.1 billHeap ⟨billTy, 0⟩ "count" (.sint 5)
      (by decide),
    claim8_unexported_fields.2.2 ⟨billTy, 0⟩ "count" (by decide)⟩

/-- C8 counterexample: `AttrNames` of a struct with the unexported field
`count` includes `"count"`, contradicting "AttrNames never includes an
unexported field's name". -/
theorem claim8_counterexample :
    isExported "count" = false ∧
      "count" ∈ GoStruct.attrNames ⟨billTy, 0⟩ := by
  decide

/-! ## C9: GoStruct.Freeze is a no-op -/

/-- C9 (confirmed): `GoStruct.Freeze` has an empty body, so any number of
`Freeze` calls leave the view unchanged and `SetField` behaves exactly as
without them — on a settable exported field it still succeeds and writes
through to the host struct — while the same mutation on a frozen `GoMap`
or `GoSlice` fails with the frozen-target error. -/
theorem claim9_struct_freeze_noop :
    (∀ (n : Nat) (g : GoStruct), GoStruct.freezeN n g = g) ∧
      (∀ (n : Nat) (sh : SHeap) (g : GoStruct) (name : String) (v : SVal),
        GoStruct.setField sh (GoStruct.freezeN n g) name v =
          GoStruct.setField sh g name v) ∧
      (∀ (n : Nat) (sh : SHeap) (g : GoStruct) (name : String) (v : SVal)
          (fty : GoTy),
        lookupField g.ty.fields name = some fty → isExported name = true →
        (GoStruct.setField sh (GoStruct.freezeN n g) name v).2 = .ok () ∧
          (GoStruct.setField sh (GoStruct.freezeN n g) name v).1.smem g.addr
              name = fieldConv fty (FromValue v)) ∧
      (∀ (κ α : Type) [DecidableEq κ] (convK : SVal → κ) (convV : SVal → α)
          (mh : MHeap κ α) (gm : GoMap) (k v2 : SVal),
        GoMap.setKey convK convV mh (GoMap.freeze gm) k v2 =
          (mh, GoMap.freeze gm, .error "cannot insert into frozen map")) ∧
      (∀ (α : Type) (convE : SVal → α) (h : Heap α) (gs : GoSlice) (i : Nat)
          (x : SVal),
        GoSlice.setIndex convE h (GoSlice.freeze gs) i x =
          (h, GoSlice.freeze gs, .error "cannot assign to frozen slice")) := by
  have hfz : ∀ (n : Nat) (g : GoStruct), GoStruct.freezeN n g = g := by
    intro n
    induction n with
    | zero => intro g; rfl
    | succ n ih => intro g; exact ih g
  refine ⟨hfz, ?_, ?_, ?_, ?_⟩
  · intro n sh g name v
    rw [hfz]
  · intro n sh g name v fty hf hx
    rw [hfz]
    constructor
    · simp [GoStruct.setField, hf, hx]
    · simp [GoStruct.setField, hf, hx]
  · intro κ α inst convK convV mh gm k v2
    simp [GoMap.setKey, GoMap.freeze]
  · intro α convE h gs i x
    simp [GoSlice.setIndex, GoSlice.freeze, GoSlice.checkMutable]

/-- Witness for C9's theorem: two `Freeze` calls on the `{Name: "bill"}`
struct, then `SetField Name "mary"` still succeeds and the host sees
"mary"; the frozen map/slice counterparts fail. -/
theorem claim9_struct_freeze_noop_witness :
    (lookupField billTy.fields "Name" = some .tstring ∧
        isExported "Name" = true) ∧
      (GoStruct.setField billHeap
          (GoStruct.freezeN 2 ⟨billTy, 0⟩) "Name" (.sstr "mary")).2 = .ok () ∧
      (GoStruct.setField billHeap
            (GoStruct.freezeN 2 ⟨billTy, 0⟩) "Name" (.sstr "mary")).1.smem 0
          "Name" = fieldConv .tstring (FromValue (.sstr "mary")) ∧
      GoMap.setKey convToStr convToInt mheap1 (GoMap.freeze ⟨0, 0, false⟩)
          (.sstr "a") (.sint 2) =
        (mheap1, GoMap.freeze ⟨0, 0, false⟩,
          .error "cannot insert into frozen map") ∧
      GoSlice.setIndex convToInt heap3 (GoSlice.freeze ⟨host3, 0, false⟩) 0
          (.sint 7) =
        (heap3, GoSlice.freeze ⟨host3, 0, false⟩,
          .error "cannot assign to frozen slice") :=
  ⟨⟨by decide, by decide⟩,
    (claim9_struct_freeze_noop.2.2.1 2 billHeap ⟨billTy, 0⟩ "Name"
      (.sstr "mary") .tstring (by decide) (by decide)).1,
    (claim9_struct_freeze_noop.2.2.1 2 billHeap ⟨billTy, 0⟩ "Name"
      (.sstr "mary") .tstring (by decide) (by decide)).2,
    claim9_struct_freeze_noop.2.2.2.1 String Int convToStr convToInt mheap1
      ⟨0, 0, false⟩ (.sstr "a") (.sint 2),
    claim9_struct_freeze_noop.2.2.2.2 Int convToInt heap3 ⟨host3, 0, false⟩ 0
      (.sint 7)⟩

/-! ## C2: script mutations land in the host's own value -/

theorem lookupA_setA {κ α : Type} [DecidableEq κ] (l : List (κ × α)) (k : κ)
    (v : α) : lookupA (setA l k v) k = some v := by
  induction l with
  | nil => simp [setA, lookupA]
  | cons p l ih =>
      obtain ⟨k', v'⟩ := p
      by_cases hk : k' = k
      · subst hk
        simp [setA, lookupA]
      · simp [setA, lookupA, hk, ih]

/-- C2 (confirmed): a script-side mutation through a view is applied to the
host's own value, not a copy: `GoStruct.SetField` writes through the stored
host pointer, `GoMap.SetKey` writes into the aliased host map object, and
`GoSlice.SetIndex` writes into the host's backing array, so reading the
host's original pointer/map/slice back after the call shows the change. -/
theorem claim2_view_mutation_aliases_host :
    (∀ (sh : SHeap) (g : GoStruct) (name : String) (v : SVal) (fty : GoTy),
        lookupField g.ty.fields name = some fty → isExported name = true →
        (GoStruct.setField sh g name v).2 = .ok () ∧
          (GoStruct.setField sh g name v).1.smem g.addr name =
            fieldConv fty (FromValue v)) ∧
      (∀ (κ α : Type) [DecidableEq κ] (convK : SVal → κ) (convV : SVal → α)
          (mh : MHeap κ α) (g : GoMap) (k v : SVal),
        g.frozen = false → g.numIt = 0 →
        (GoMap.setKey convK convV mh g k v).2.2 = .ok () ∧
          lookupA ((GoMap.setKey convK convV mh g k v).1.mmem g.ref)
              (convK k) = some (convV v)) ∧
      (∀ (α : Type) (convE : SVal → α) (h : Heap α) (g : GoSlice) (i : Nat)
          (x : SVal),
        g.frozen = false → g.numIt = 0 → i < g.v.len →
        (GoSlice.setIndex convE h g i x).2.2 = .ok () ∧
          (GoSlice.setIndex convE h g i x).1.readS g.v =
            (h.readS g.v).set i (convE x)) := by
  refine ⟨?_, ?_, ?_⟩
  · intro sh g name v fty hf hx
    constructor
    · simp [GoStruct.setField, hf, hx]
    · simp [GoStruct.setField, hf, hx]
  · intro κ α inst convK convV mh g k v hfz hit
    constructor
    · simp [GoMap.setKey, hfz, hit]
    · simp only [GoMap.setKey, hfz, hit]
      simp [MHeap.setEntry, lookupA_setA]
  · intro α convE h g i x hfz hit hi
    constructor
    · simp [GoSlice.setIndex, GoSlice.checkMutable, hfz, hit]
    · simp only [GoSlice.setIndex, GoSlice.checkMutable, hfz, hit]
      simp [readS_write_inside h g.v i (convE x) hi]

/-- Witness for C2's theorem: the spec's own scenarios — struct field
`Name` set to "mary", map key "b" set to 2, slice element 1 set to 42 —
with the host-side read-back evaluated concretely. -/
theorem claim2_view_mutation_aliases_host_witness :
    (lookupField billTy.fields "Name" = some .tstring ∧
        isExported "Name" = true) ∧
      (GoStruct.setField billHeap ⟨billTy, 0⟩ "Name" (.sstr "mary")).1.smem 0
          "Name" = fieldConv .tstring (FromValue (.sstr "mary")) ∧
      fieldConv .tstring (FromValue (.sstr "mary")) = .gstring "mary" ∧
      lookupA ((GoMap.setKey convToStr convToInt mheap1 ⟨0, 0, false⟩
            (.sstr "b") (.sint 2)).1.mmem 0) "b" = some 2 ∧
      (GoSlice.setIndex convToInt heap3 ⟨host3, 0, false⟩ 1
            (.sint 42)).1.readS host3 =
        (heap3.readS host3).set 1 (convToInt (.sint 42)) ∧
      (heap3.readS host3).set 1 (convToInt (.sint 42)) = [10, 42, 30] :=
  ⟨⟨by decide, by decide⟩,
    (claim2_view_mutation_aliases_host.1 billHeap ⟨billTy, 0⟩ "Name"
      (.sstr "mary") .tstring (by decide) (by decide)).2,
    by decide,
    (claim2_view_mutation_aliases_host.2.1 String Int convToStr convToInt
      mheap1 ⟨0, 0, false⟩ (.sstr "b") (.sint 2) (by decide) (by decide)).2,
    (claim2_view_mutation_aliases_host.2.2 Int convToInt heap3
      ⟨host3, 0, false⟩ 1 (.sint 42) (by decide) (by decide) (by decide)).2,
    by decide⟩

/-! ## C3 / C4: freeze and iteration guards -/

/-- When the mutability guard trips, `list_pop` still fails and leaves heap
and view untouched — but the error it reports is the bounds (or index
parse) error when that check, which the code runs first, fails. -/
theorem list_pop_guarded_shape {α : Type} (z : α) (h : Heap α) (g : GoSlice)
    (arg : Option SVal) (m : String)
    (hcm : g.checkMutable "pop from" = some m) :
    (list_pop z h g arg).1 = h ∧ (list_pop z h g arg).2.1 = g ∧
      ∃ msg, (list_pop z h g arg).2.2 = Except.error msg := by
  unfold list_pop
  rcases arg with _ | a
  · dsimp only
    split_ifs with hb
    · exact ⟨rfl, rfl, _, rfl⟩
    · rw [hcm]
      exact ⟨rfl, rfl, _, rfl⟩
  · dsimp only
    cases toInt a with
    | error e => exact ⟨rfl, rfl, _, rfl⟩
    | ok j =>
        dsimp only
        split_ifs with hb
        · exact ⟨rfl, rfl, _, rfl⟩
        · rw [hcm]
          exact ⟨rfl, rfl, _, rfl⟩

/-- When the index argument parses and is in range, a tripped mutability
guard is exactly what `list_pop` reports. -/
theorem list_pop_guarded_msg {α : Type} (z : α) (h : Heap α) (g : GoSlice)
    (j : Int) (m : String) (hcm : g.checkMutable "pop from" = some m)
    (hj0 : 0 ≤ j) (hjl : j < g.v.len) (hjr : j < 2 ^ 63) :
    list_pop z h g (some (.sint j)) = (h, g, .error m) := by
  unfold list_pop toInt
  dsimp only
  rw [if_pos (show -(2 ^ 63) ≤ j ∧ j < 2 ^ 63 by omega)]
  dsimp only
  rw [if_neg (by omega), hcm]

/-- C3 (corrected): once a `GoMap` or `GoSlice` view is frozen, every
mutating operation fails with the frozen-target error and leaves the heap,
the view's header and the flags untouched — except `pop`, which validates
its index argument (parse and bounds) *before* the freeze check and can
therefore report the bounds error instead (still failing and leaving the
container unchanged).  The frozen flag is set by `Freeze` and no operation
ever clears it. -/
theorem claim3_freeze_terminal :
    (∀ (κ α : Type) [DecidableEq κ] (convK : SVal → κ) (convV : SVal → α)
        (mh : MHeap κ α) (g : GoMap) (k v : SVal),
        g.frozen = true →
        GoMap.setKey convK convV mh g k v =
            (mh, g, .error "cannot insert into frozen map") ∧
          GoMap.delete convK mh g k =
            (mh, g, .error "cannot delete from frozen map") ∧
          GoMap.clearMap mh g = (mh, g, .error "cannot clear frozen map")) ∧
      (∀ (α : Type) [DecidableEq α] (z : α) (convE : SVal → α) (h : Heap α)
          (g : GoSlice) (i : Nat) (x idxArg : SVal) (xs : List SVal)
          (arg : Option SVal) (j : Int),
        g.frozen = true →
        GoSlice.setIndex convE h g i x =
            (h, g, .error "cannot assign to frozen slice") ∧
          GoSlice.clear h g = (h, g, .error "cannot clear frozen slice") ∧
          list_append z convE h g x =
            (h, g, .error "cannot append to frozen slice") ∧
          list_extend z convE h g xs =
            (h, g, .error "cannot extend frozen slice") ∧
          list_insert z convE h g idxArg x =
            (h, g, .error "cannot insert into frozen slice") ∧
          list_remove z convE h g x =
            (h, g, .error "cannot remove from frozen slice") ∧
          ((list_pop z h g arg).1 = h ∧ (list_pop z h g arg).2.1 = g ∧
            ∃ msg, (list_pop z h g arg).2.2 = Except.error msg) ∧
          (0 ≤ j → j < g.v.len → j < 2 ^ 63 →
            list_pop z h g (some (.sint j)) =
              (h, g, .error "cannot pop from frozen slice"))) ∧
      (∀ g : GoMap, (GoMap.freeze g).frozen = true ∧
        (GoMap.iterate g).frozen = g.frozen ∧
        (GoMap.iterDone g).frozen = g.frozen) ∧
      (∀ g : GoSlice, (GoSlice.freeze g).frozen = true ∧
        (GoSlice.iterate g).frozen = g.frozen ∧
        (GoSlice.iterDone g).frozen = g.frozen) := by
  refine ⟨?_, ?_, ?_, ?_⟩
  · intro κ α inst convK convV mh g k v hfz
    refine ⟨?_, ?_, ?_⟩ <;> simp [GoMap.setKey, GoMap.delete, GoMap.clearMap, hfz]
  · intro α inst z convE h g i x idxArg xs arg j hfz
    have hcm : ∀ verb : String,
        g.checkMutable verb = some ("cannot " ++ verb ++ " frozen slice") := by
      intro verb
      simp [GoSlice.checkMutable, hfz]
    refine ⟨?_, ?_, ?_, ?_, ?_, ?_, ?_, ?_⟩
    · simp [GoSlice.setIndex, hcm "assign to"]
    · simp [GoSlice.clear, hcm "clear"]
    · simp [list_append, hcm "append to"]
    · simp [list_extend, hcm "extend"]
    · simp [list_insert, hcm "insert into"]
    · simp [list_remove, hcm "remove from"]
    · exact list_pop_guarded_shape z h g arg _ (hcm "pop from")
    · intro hj0 hjl hjr
      exact list_pop_guarded_msg z h g j _ (hcm "pop from") hj0 hjl hjr
  · intro g
    exact ⟨rfl, rfl, rfl⟩
  · intro g
    exact ⟨rfl, rfl, rfl⟩

/-- Witness for C3's theorem: a frozen `map[string]int{"a":1}` and a
frozen `[]int{10,20,30}` view, with a well-formed `pop 1`. -/
theorem claim3_freeze_terminal_witness :
    ((⟨0, 0, true⟩ : GoMap).frozen = true ∧
        (⟨host3, 0, true⟩ : GoSlice).frozen = true) ∧
      GoMap.setKey convToStr convToInt mheap1 ⟨0, 0, true⟩ (.sstr "a")
          (.sint 2) = (mheap1, ⟨0, 0, true⟩,
            .error "cannot insert into frozen map") ∧
      list_append (0 : Int) convToInt heap3 ⟨host3, 0, true⟩ (.sint 4) =
        (heap3, ⟨host3, 0, true⟩, .error "cannot append to frozen slice") ∧
      list_pop (0 : Int) heap3 ⟨host3, 0, true⟩ (some (.sint 1)) =
        (heap3, ⟨host3, 0, true⟩, .error "cannot pop from frozen slice") :=
  ⟨⟨rfl, rfl⟩,
    (claim3_freeze_terminal.1 String Int convToStr convToInt mheap1
      ⟨0, 0, true⟩ (.sstr "a") (.sint 2) rfl).1,
    (claim3_freeze_terminal.2.1 Int (0 : Int) convToInt heap3 ⟨host3, 0, true⟩
      0 (.sint 4) (.sint 0) [] Option.none 1 rfl).2.2.1,
    (claim3_freeze_terminal.2.1 Int (0 : Int) convToInt heap3 ⟨host3, 0, true⟩
      0 (.sint 4) (.sint 0) [] Option.none 1 rfl).2.2.2.2.2.2.2
      (by decide) (by decide) (by decide)⟩

/-- C3 counterexample: on a frozen `[]int{10,20,30}` view, `pop 5` fails
with the bounds error, not the frozen-target error the claim requires for
every mutating operation on a frozen view. -/
theorem claim3_counterexample :
    (⟨host3, 0, true⟩ : GoSlice).frozen = true ∧
      list_pop (0 : Int) heap3 ⟨host3, 0, true⟩ (some (.sint 5)) =
        (heap3, ⟨host3, 0, true⟩,
          .error "pop: index 5 is out of range [0:3]") ∧
      "pop: index 5 is out of range [0:3]" ≠ "cannot pop from frozen slice" := by
  refine ⟨rfl, ?_, by decide⟩
  rfl

/-- C4 (corrected): while an iterator on a non-frozen view is open
(`numIt > 0`), every mutating call fails with the during-iteration error
and leaves heap, header and flags untouched — with two code-ordered
exceptions: on a view that is *also* frozen the frozen error takes
precedence (the freeze check runs first), and `pop` validates its index
argument (parse and bounds) before either guard and can report the bounds
error instead (still failing and leaving the container unchanged).
`Iterate` increments and `Done` decrements the live-iterator count. -/
theorem claim4_iteration_guard :
    (∀ (κ α : Type) [DecidableEq κ] (convK : SVal → κ) (convV : SVal → α)
        (mh : MHeap κ α) (g : GoMap) (k v : SVal),
        g.frozen = false → 0 < g.numIt →
        GoMap.setKey convK convV mh g k v =
            (mh, g, .error "cannot insert into map during iteration") ∧
          GoMap.delete convK mh g k =
            (mh, g, .error "cannot delete from map during iteration") ∧
          GoMap.clearMap mh g =
            (mh, g, .error "cannot clear map during iteration")) ∧
      (∀ (α : Type) [DecidableEq α] (z : α) (convE : SVal → α) (h : Heap α)
          (g : GoSlice) (i : Nat) (x idxArg : SVal) (xs : List SVal)
          (arg : Option SVal) (j : Int),
        g.frozen = false → 0 < g.numIt →
        GoSlice.setIndex convE h g i x =
            (h, g, .error "cannot assign to slice during iteration") ∧
          GoSlice.clear h g =
            (h, g, .error "cannot clear slice during iteration") ∧
          list_append z convE h g x =
            (h, g, .error "cannot append to slice during iteration") ∧
          list_extend z convE h g xs =
            (h, g, .error "cannot extend slice during iteration") ∧
          list_insert z convE h g idxArg x =
            (h, g, .error "cannot insert into slice during iteration") ∧
          list_remove z convE h g x =
            (h, g, .error "cannot remove from slice during iteration") ∧
          ((list_pop z h g arg).1 = h ∧ (list_pop z h g arg).2.1 = g ∧
            ∃ msg, (list_pop z h g arg).2.2 = Except.error msg) ∧
          (0 ≤ j → j < g.v.len → j < 2 ^ 63 →
            list_pop z h g (some (.sint j)) =
              (h, g, .error "cannot pop from slice during iteration"))) ∧
      (∀ g : GoMap, (GoMap.iterate g).numIt = g.numIt + 1 ∧
        (GoMap.iterDone g).numIt = g.numIt - 1) ∧
      (∀ g : GoSlice, (GoSlice.iterate g).numIt = g.numIt + 1 ∧
        (GoSlice.iterDone g).numIt = g.numIt - 1) := by
  refine ⟨?_, ?_, ?_, ?_⟩
  · intro κ α inst convK convV mh g k v hfz hit
    refine ⟨?_, ?_, ?_⟩ <;>
      simp [GoMap.setKey, GoMap.delete, GoMap.clearMap, hfz, hit]
  · intro α inst z convE h g i x idxArg xs arg j hfz hit
    have hcm : ∀ verb : String,
        g.checkMutable verb =
          some ("cannot " ++ verb ++ " slice during iteration") := by
      intro verb
      simp [GoSlice.checkMutable, hfz, hit]
    refine ⟨?_, ?_, ?_, ?_, ?_, ?_, ?_, ?_⟩
    · simp [GoSlice.setIndex, hcm "assign to"]
    · simp [GoSlice.clear, hcm "clear"]
    · simp [list_append, hcm "append to"]
    · simp [list_extend, hcm "extend"]
    · simp [list_insert, hcm "insert into"]
    · simp [list_remove, hcm "remove from"]
    · exact list_pop_guarded_shape z h g arg _ (hcm "pop from")
    · intro hj0 hjl hjr
      exact list_pop_guarded_msg z h g j _ (hcm "pop from") hj0 hjl hjr
  · intro g
    exact ⟨rfl, rfl⟩
  · intro g
    exact ⟨rfl, rfl⟩

/-- Witness for C4's theorem: one open iterator on the
`map[string]int{"a":1}` and `[]int{10,20,30}` views (not frozen). -/
theorem claim4_iteration_guard_witness :
    ((GoMap.iterate ⟨0, 0, false⟩).frozen = false ∧
        0 < (GoMap.iterate ⟨0, 0, false⟩).numIt ∧
        (GoSlice.iterate ⟨host3, 0, false⟩).frozen = false ∧
        0 < (GoSlice.iterate ⟨host3, 0, false⟩).numIt) ∧
      GoMap.setKey convToStr convToInt mheap1 (GoMap.iterate ⟨0, 0, false⟩)
          (.sstr "a") (.sint 2) =
        (mheap1, GoMap.iterate ⟨0, 0, false⟩,
          .error "cannot insert into map during iteration") ∧
      list_append (0 : Int) convToInt heap3 (GoSlice.iterate ⟨host3, 0, false⟩)
          (.sint 4) =
        (heap3, GoSlice.iterate ⟨host3, 0, false⟩,
          .error "cannot append to slice during iteration") ∧
      list_pop (0 : Int) heap3 (GoSlice.iterate ⟨host3, 0, false⟩)
          (some (.sint 1)) =
        (heap3, GoSlice.iterate ⟨host3, 0, false⟩,
          .error "cannot pop from slice during iteration") :=
  ⟨⟨rfl, by decide, rfl, by decide⟩,
    (claim4_iteration_guard.1 String Int convToStr convToInt mheap1
      (GoMap.iterate ⟨0, 0, false⟩) (.sstr "a") (.sint 2) rfl
      (by decide)).1,
    (claim4_iteration_guard.2.1 Int (0 : Int) convToInt heap3
      (GoSlice.iterate ⟨host3, 0, false⟩) 0 (.sint 4) (.sint 0) []
      Option.none 1 rfl (by decide)).2.2.1,
    (claim4_iteration_guard.2.1 Int (0 : Int) convToInt heap3
      (GoSlice.iterate ⟨host3, 0, false⟩) 0 (.sint 4) (.sint 0) []
      Option.none 1 rfl (by decide)).2.2.2.2.2.2.2
      (by decide) (by decide) (by decide)⟩

/-- C4 counterexample: freeze the map view, then open an iterator — the
iteration count is positive, yet `SetKey` reports the frozen error, not
the iteration-specific error the claim requires. -/
theorem claim4_counterexample :
    0 < (GoMap.iterate (GoMap.freeze ⟨0, 0, false⟩)).numIt ∧
      GoMap.setKey convToStr convToInt mheap1
          (GoMap.iterate (GoMap.freeze ⟨0, 0, false⟩)) (.sstr "a")
          (.sint 2) =
        (mheap1, GoMap.iterate (GoMap.freeze ⟨0, 0, false⟩),
          .error "cannot insert into frozen map") ∧
      "cannot insert into frozen map" ≠
        "cannot insert into map during iteration" := by
  refine ⟨by decide, rfl, by decide⟩

/-! ## C10: length-changing list operations rebind rather than write through -/

theorem append1_len {α : Type} (h : Heap α) (s : SliceH) (x z : α) :
    (h.append1 s x z).2.len = s.len + 1 := by
  unfold Heap.append1
  by_cases hc : s.len < s.cap
  · rw [if_pos hc]
  · rw [if_neg hc, alloc_hdr]
    simp [readS_length]

/-- A fold of `reflect.Append` steps (the body of `list_extend`) preserves
the extend invariant, leaves the host's window untouched, and the final
header reads the old elements followed by all appended ones. -/
theorem foldl_append1 {α : Type} (z : α) (convE : SVal → α) :
    ∀ (xs : List SVal) (h : Heap α) (s s0 : SliceH), ExtInv s0 h s →
      ExtInv s0
          (xs.foldl (fun acc x => Heap.append1 acc.1 acc.2 (convE x) z)
            (h, s)).1
          (xs.foldl (fun acc x => Heap.append1 acc.1 acc.2 (convE x) z)
            (h, s)).2 ∧
        (xs.foldl (fun acc x => Heap.append1 acc.1 acc.2 (convE x) z)
              (h, s)).1.readS s0 = h.readS s0 ∧
        (xs.foldl (fun acc x => Heap.append1 acc.1 acc.2 (convE x) z)
              (h, s)).1.readS
            (xs.foldl (fun acc x => Heap.append1 acc.1 acc.2 (convE x) z)
              (h, s)).2 = h.readS s ++ xs.map convE := by
  intro xs
  induction xs with
  | nil =>
      intro h s s0 hinv
      exact ⟨hinv, rfl, by simp⟩
  | cons x xs ih =>
      intro h s s0 hinv
      obtain ⟨hinv', hold⟩ := append1_ExtInv s0 h s (convE x) z hinv
      obtain ⟨ih1, ih2, ih3⟩ :=
        ih (h.append1 s (convE x) z).1 (h.append1 s (convE x) z).2 s0 hinv'
      simp only [List.foldl_cons]
      refine ⟨ih1, ?_, ?_⟩
      · rw [ih2, hold]
      · rw [ih3, readS_append1_new]
        simp

/-- `list_append` with a clear guard, unfolded. -/
theorem list_append_eq {α : Type} (z : α) (convE : SVal → α) (h : Heap α)
    (g : GoSlice) (x : SVal)
    (hcm : g.checkMutable "append to" = Option.none) :
    list_append z convE h g x =
      ((h.append1 g.v (convE x) z).1,
        { g with v := (h.append1 g.v (convE x) z).2 }, .ok ()) := by
  unfold list_append
  rw [hcm]

/-- `list_extend` with a clear guard, unfolded. -/
theorem list_extend_eq {α : Type} (z : α) (convE : SVal → α) (h : Heap α)
    (g : GoSlice) (xs : List SVal)
    (hcm : g.checkMutable "extend" = Option.none) :
    list_extend z convE h g xs =
      ((xs.foldl (fun acc x => Heap.append1 acc.1 acc.2 (convE x) z)
          (h, g.v)).1,
        { g with v := (xs.foldl
            (fun acc x => Heap.append1 acc.1 acc.2 (convE x) z) (h, g.v)).2 },
        .ok ()) := by
  unfold list_extend
  rw [hcm]

/-- `GoSlice.clear` with a clear guard, unfolded. -/
theorem clear_eq {α : Type} (h : Heap α) (g : GoSlice)
    (hcm : g.checkMutable "clear" = Option.none) :
    GoSlice.clear h g =
      (h, { g with v := ⟨g.v.ref, g.v.off, 0, g.v.cap⟩ }, .ok ()) := by
  unfold GoSlice.clear
  rw [hcm]

/-- `GoSlice.setIndex` with a clear guard, unfolded. -/
theorem setIndex_eq {α : Type} (convE : SVal → α) (h : Heap α) (g : GoSlice)
    (i : Nat) (x : SVal)
    (hcm : g.checkMutable "assign to" = Option.none) :
    GoSlice.setIndex convE h g i x =
      (h.write g.v.ref (g.v.off + i) (convE x), g, .ok ()) := by
  unfold GoSlice.setIndex
  rw [hcm]

/-- `list_remove` with a clear guard and a found element, unfolded. -/
theorem list_remove_eq {α : Type} [DecidableEq α] (z : α) (convE : SVal → α)
    (h : Heap α) (g : GoSlice) (x : SVal) (j : Nat)
    (hcm : g.checkMutable "remove from" = Option.none)
    (hfind : (h.readS g.v).findIdx? (fun a => a = convE x) = some j) :
    list_remove z convE h g x =
      ((h.appendSliceH (g.v.sub 0 j) (g.v.sub (j + 1) g.v.len) z).1,
        { g with v :=
            (h.appendSliceH (g.v.sub 0 j) (g.v.sub (j + 1) g.v.len) z).2 },
        .ok ()) := by
  unfold list_remove
  rw [hcm]
  dsimp only
  rw [hfind]

/-- `toInt` on an in-range integer payload succeeds with that integer. -/
theorem toInt_sint_ok (n : Int) (h1 : -(2 ^ 63) ≤ n) (h2 : n < 2 ^ 63) :
    toInt (.sint n) = .ok n := by
  unfold toInt
  dsimp only
  rw [if_pos (⟨h1, h2⟩ : _ ∧ _)]

/-- `list_pop` with a clear guard and an index argument that parses to an
in-range integer, unfolded. -/
theorem list_pop_eq_ok {α : Type} (z : α) (h : Heap α) (g : GoSlice)
    (a : SVal) (j : Int) (hti : toInt a = .ok j)
    (hcm : g.checkMutable "pop from" = Option.none)
    (hjl : 0 ≤ j) (hjr : j < (g.v.len : Int)) :
    list_pop z h g (some a) =
      ((h.appendSliceH (g.v.sub 0 j.toNat)
          (g.v.sub (j.toNat + 1) g.v.len) z).1,
        { g with v :=
            (h.appendSliceH (g.v.sub 0 j.toNat)
              (g.v.sub (j.toNat + 1) g.v.len) z).2 },
        .ok (h.mem g.v.ref (g.v.off + j.toNat))) := by
  unfold list_pop
  dsimp only
  rw [hti]
  dsimp only
  rw [if_neg (by omega), hcm]

/-- `list_pop_eq_ok` specialized to a natural index, with the cast
normalized. -/
theorem list_pop_eq {α : Type} (z : α) (h : Heap α) (g : GoSlice) (i : Nat)
    (hcm : g.checkMutable "pop from" = Option.none) (hil : i < g.v.len)
    (hir : i < 2 ^ 63) :
    list_pop z h g (some (.sint i)) =
      ((h.appendSliceH (g.v.sub 0 i) (g.v.sub (i + 1) g.v.len) z).1,
        { g with v :=
            (h.appendSliceH (g.v.sub 0 i) (g.v.sub (i + 1) g.v.len) z).2 },
        .ok (h.mem g.v.ref (g.v.off + i))) := by
  have h0 := list_pop_eq_ok z h g (.sint i) (i : Int)
    (toInt_sint_ok (i : Int) (by omega) (by omega)) hcm (by omega) (by omega)
  rw [Int.toNat_natCast] at h0
  exact h0

/-- `list_insert` with a clear guard and an index argument that parses to an
in-range nonnegative integer, unfolded to the slide-up form. -/
theorem list_insert_eq_ok {α : Type} (z : α) (convE : SVal → α)
    (h : Heap α) (g : GoSlice) (a : SVal) (j : Int) (x : SVal)
    (hti : toInt a = .ok j)
    (hcm : g.checkMutable "insert into" = Option.none)
    (hjl : 0 ≤ j) (hjr : j < (g.v.len : Int)) :
    list_insert z convE h g a x =
      ((((h.append1 g.v z z).1.copyTo
            ((h.append1 g.v z z).2.sub ((max j 0).toNat + 1)
              (h.append1 g.v z z).2.len)
            ((h.append1 g.v z z).2.sub ((max j 0).toNat)
              (h.append1 g.v z z).2.len)).write
          (h.append1 g.v z z).2.ref
          ((h.append1 g.v z z).2.off + (max j 0).toNat)
          (convE x)),
        { g with v := (h.append1 g.v z z).2 }, .ok ()) := by
  unfold list_insert
  rw [hcm]
  dsimp only
  rw [hti]
  dsimp only
  rw [if_neg (show ¬(j < 0) by omega)]
  rw [if_neg (show ¬((g.v.len : Int) ≤ j) by omega)]

/-- `list_insert_eq_ok` specialized to a natural index, with the cast
normalized. -/
theorem list_insert_eq {α : Type} (z : α) (convE : SVal → α) (h : Heap α)
    (g : GoSlice) (i : Nat) (x : SVal)
    (hcm : g.checkMutable "insert into" = Option.none) (hil : i < g.v.len)
    (hir : i < 2 ^ 63) :
    list_insert z convE h g (.sint i) x =
      ((((h.append1 g.v z z).1.copyTo
            ((h.append1 g.v z z).2.sub (i + 1) (h.append1 g.v z z).2.len)
            ((h.append1 g.v z z).2.sub i (h.append1 g.v z z).2.len)).write
          (h.append1 g.v z z).2.ref ((h.append1 g.v z z).2.off + i)
          (convE x)),
        { g with v := (h.append1 g.v z z).2 }, .ok ()) := by
  have h0 := list_insert_eq_ok z convE h g (.sint i) (i : Int) x
    (toInt_sint_ok (i : Int) (by omega) (by omega)) hcm (by omega) (by omega)
  have hmax : (max (i : Int) 0).toNat = i := by omega
  rw [hmax] at h0
  exact h0

/-- C10 (corrected): the length-changing list operations rebind the view's
internal slice header instead of updating the host's header, so the host's
slice keeps its length and the new length/contents are read through the
view; `append`, `extend` and `clear` never touch the host-visible window,
and element assignment (`SetIndex`) by contrast writes into the host's
backing array — but `pop`, `remove` and `insert` slide elements inside the
*shared* backing array, so the host can observe element changes within its
window (see the counterexample). -/
theorem claim10_rebind_vs_write_through :
    (∀ (α : Type) (z : α) (convE : SVal → α) (h : Heap α) (g : GoSlice)
        (x : SVal),
        g.frozen = false → g.numIt = 0 → g.v.ref < h.next →
        (list_append z convE h g x).2.2 = .ok () ∧
          (list_append z convE h g x).2.1.numIt = g.numIt ∧
          (list_append z convE h g x).1.readS g.v = h.readS g.v ∧
          (list_append z convE h g x).1.readS
              (list_append z convE h g x).2.1.v =
            h.readS g.v ++ [convE x]) ∧
      (∀ (α : Type) (z : α) (convE : SVal → α) (h : Heap α) (g : GoSlice)
          (xs : List SVal),
        g.frozen = false → g.numIt = 0 → g.v.ref < h.next →
        (list_extend z convE h g xs).2.2 = .ok () ∧
          (list_extend z convE h g xs).1.readS g.v = h.readS g.v ∧
          (list_extend z convE h g xs).1.readS
              (list_extend z convE h g xs).2.1.v =
            h.readS g.v ++ xs.map convE) ∧
      (∀ (α : Type) (h : Heap α) (g : GoSlice),
        g.frozen = false → g.numIt = 0 →
        GoSlice.clear h g =
            (h, { g with v := ⟨g.v.ref, g.v.off, 0, g.v.cap⟩ }, .ok ()) ∧
          h.readS (⟨g.v.ref, g.v.off, 0, g.v.cap⟩ : SliceH) = []) ∧
      (∀ (α : Type) (z : α) (h : Heap α) (g : GoSlice) (i : Nat),
        g.frozen = false → g.numIt = 0 → i < g.v.len → i < 2 ^ 63 →
        g.v.len ≤ g.v.cap →
        (list_pop z h g (some (.sint i))).2.2 =
            .ok (h.mem g.v.ref (g.v.off + i)) ∧
          (list_pop z h g (some (.sint i))).1.readS
              (list_pop z h g (some (.sint i))).2.1.v =
            (h.readS g.v).eraseIdx i) ∧
      (∀ (α : Type) [DecidableEq α] (z : α) (convE : SVal → α) (h : Heap α)
          (g : GoSlice) (x : SVal) (j : Nat),
        g.frozen = false → g.numIt = 0 → g.v.len ≤ g.v.cap →
        (h.readS g.v).findIdx? (fun a => a = convE x) = some j →
        (list_remove z convE h g x).2.2 = .ok () ∧
          (list_remove z convE h g x).1.readS
              (list_remove z convE h g x).2.1.v =
            (h.readS g.v).eraseIdx j) ∧
      (∀ (α : Type) (z : α) (convE : SVal → α) (h : Heap α) (g : GoSlice)
          (i : Nat) (x : SVal),
        g.frozen = false → g.numIt = 0 → i < g.v.len → i < 2 ^ 63 →
        (list_insert z convE h g (.sint i) x).2.2 = .ok () ∧
          (list_insert z convE h g (.sint i) x).1.readS
              (list_insert z convE h g (.sint i) x).2.1.v =
            (h.readS g.v).take i ++ convE x :: (h.readS g.v).drop i) ∧
      (∀ (α : Type) (convE : SVal → α) (h : Heap α) (g : GoSlice) (i : Nat)
          (x : SVal),
        g.frozen = false → g.numIt = 0 → i < g.v.len →
        (GoSlice.setIndex convE h g i x).1.readS g.v =
          (h.readS g.v).set i (convE x)) := by
  refine ⟨?_, ?_, ?_, ?_, ?_, ?_, ?_⟩
  · intro α z convE h g x hfz hit hwf
    have hcm : g.checkMutable "append to" = Option.none := by
      simp [GoSlice.checkMutable, hfz, hit]
    have hinv : ExtInv g.v h g.v := ⟨hwf, hwf, Or.inl ⟨rfl, rfl, le_rfl⟩⟩
    obtain ⟨-, hold⟩ := append1_ExtInv g.v h g.v (convE x) z hinv
    rw [list_append_eq z convE h g x hcm]
    exact ⟨rfl, rfl, hold, readS_append1_new h g.v (convE x) z⟩
  · intro α z convE h g xs hfz hit hwf
    have hcm : g.checkMutable "extend" = Option.none := by
      simp [GoSlice.checkMutable, hfz, hit]
    have hinv : ExtInv g.v h g.v := ⟨hwf, hwf, Or.inl ⟨rfl, rfl, le_rfl⟩⟩
    obtain ⟨-, h2, h3⟩ := foldl_append1 z convE xs h g.v g.v hinv
    rw [list_extend_eq z convE h g xs hcm]
    exact ⟨rfl, h2, h3⟩
  · intro α h g hfz hit
    have hcm : g.checkMutable "clear" = Option.none := by
      simp [GoSlice.checkMutable, hfz, hit]
    exact ⟨clear_eq h g hcm, rfl⟩
  · intro α z h g i hfz hit hil hir hcap
    have hcm : g.checkMutable "pop from" = Option.none := by
      simp [GoSlice.checkMutable, hfz, hit]
    rw [list_pop_eq z h g i hcm hil hir]
    obtain ⟨hh, hr⟩ := appendSlice_erase h g.v i z hil hcap
    refine ⟨rfl, ?_⟩
    show (h.appendSliceH (g.v.sub 0 i) (g.v.sub (i + 1) g.v.len) z).1.readS
        (h.appendSliceH (g.v.sub 0 i) (g.v.sub (i + 1) g.v.len) z).2 = _
    rw [hh]
    exact hr
  · intro α inst z convE h g x j hfz hit hcap hfind
    have hcm : g.checkMutable "remove from" = Option.none := by
      simp [GoSlice.checkMutable, hfz, hit]
    have hjl : j < g.v.len := by
      have := (List.findIdx?_eq_some_iff_findIdx_eq.mp hfind).1
      rw [readS_length] at this
      exact this
    rw [list_remove_eq z convE h g x j hcm hfind]
    obtain ⟨hh, hr⟩ := appendSlice_erase h g.v j z hjl hcap
    refine ⟨rfl, ?_⟩
    show (h.appendSliceH (g.v.sub 0 j) (g.v.sub (j + 1) g.v.len) z).1.readS
        (h.appendSliceH (g.v.sub 0 j) (g.v.sub (j + 1) g.v.len) z).2 = _
    rw [hh]
    exact hr
  · intro α z convE h g i x hfz hit hil hir
    have hcm : g.checkMutable "insert into" = Option.none := by
      simp [GoSlice.checkMutable, hfz, hit]
    rw [list_insert_eq z convE h g i x hcm hil hir]
    have hlen1 : i < (h.append1 g.v z z).2.len := by
      rw [append1_len]
      omega
    have href := copy_slide_up (h.append1 g.v z z).1 (h.append1 g.v z z).2 i
      (convE x) hlen1
    refine ⟨rfl, ?_⟩
    show (((h.append1 g.v z z).1.copyTo
          ((h.append1 g.v z z).2.sub (i + 1) (h.append1 g.v z z).2.len)
          ((h.append1 g.v z z).2.sub i (h.append1 g.v z z).2.len)).write
        (h.append1 g.v z z).2.ref ((h.append1 g.v z z).2.off + i)
        (convE x)).readS (h.append1 g.v z z).2 = _
    rw [href, readS_append1_new, List.dropLast_concat,
      List.take_append_of_le_length (by rw [readS_length]; omega)]
  · intro α convE h g i x hfz hit hil
    have hcm : g.checkMutable "assign to" = Option.none := by
      simp [GoSlice.checkMutable, hfz, hit]
    rw [setIndex_eq convE h g i x hcm]
    exact readS_write_inside h g.v i (convE x) hil

/-- Witness for C10's theorem on `[]int{10,20,30}`: append 4 (host window
unchanged, view reads `[10,20,30,4]`), pop 0 (view reads `[20,30]`),
insert 42 at 1 (view reads `[10,42,20,30]`), remove 20, setIndex. -/
theorem claim10_rebind_vs_write_through_witness :
    ((list_append (0 : Int) convToInt heap3 ⟨host3, 0, false⟩
            (.sint 4)).1.readS host3 = heap3.readS host3 ∧
        (list_append (0 : Int) convToInt heap3 ⟨host3, 0, false⟩
              (.sint 4)).1.readS
            (list_append (0 : Int) convToInt heap3 ⟨host3, 0, false⟩
                (.sint 4)).2.1.v =
          heap3.readS host3 ++ [convToInt (.sint 4)]) ∧
      (list_pop (0 : Int) heap3 ⟨host3, 0, false⟩ (some (.sint 0))).1.readS
          (list_pop (0 : Int) heap3 ⟨host3, 0, false⟩
              (some (.sint 0))).2.1.v =
        (heap3.readS host3).eraseIdx 0 ∧
      (list_insert (0 : Int) convToInt heap3 ⟨host3, 0, false⟩ (.sint 1)
            (.sint 42)).1.readS
          (list_insert (0 : Int) convToInt heap3 ⟨host3, 0, false⟩ (.sint 1)
              (.sint 42)).2.1.v =
        (heap3.readS host3).take 1 ++ convToInt (.sint 42) ::
          (heap3.readS host3).drop 1 ∧
      (list_remove (0 : Int) convToInt heap3 ⟨host3, 0, false⟩
            (.sint 20)).1.readS
          (list_remove (0 : Int) convToInt heap3 ⟨host3, 0, false⟩
              (.sint 20)).2.1.v =
        (heap3.readS host3).eraseIdx 1 ∧
      (GoSlice.setIndex convToInt heap3 ⟨host3, 0, false⟩ 2
            (.sint 9)).1.readS host3 =
        (heap3.readS host3).set 2 (convToInt (.sint 9)) :=
  ⟨⟨(claim10_rebind_vs_write_through.1 Int (0 : Int) convToInt heap3
        ⟨host3, 0, false⟩ (.sint 4) rfl rfl (by decide)).2.2.1,
      (claim10_rebind_vs_write_through.1 Int (0 : Int) convToInt heap3
        ⟨host3, 0, false⟩ (.sint 4) rfl rfl (by decide)).2.2.2⟩,
    (claim10_rebind_vs_write_through.2.2.2.1 Int (0 : Int) heap3
      ⟨host3, 0, false⟩ 0 rfl rfl (by decide) (by decide) (by decide)).2,
    (claim10_rebind_vs_write_through.2.2.2.2.2.1 Int (0 : Int) convToInt
      heap3 ⟨host3, 0, false⟩ 1 (.sint 42) rfl rfl (by decide)
      (by decide)).2,
    (claim10_rebind_vs_write_through.2.2.2.2.1 Int (0 : Int) convToInt heap3
      ⟨host3, 0, false⟩ (.sint 20) 1 rfl rfl (by decide) (by decide)).2,
    claim10_rebind_vs_write_through.2.2.2.2.2.2 Int convToInt heap3
      ⟨host3, 0, false⟩ 2 (.sint 9) rfl rfl (by decide)⟩

/-- C10 counterexample: `pop 0` on the view over `[]int{10,20,30}` slides
the tail down inside the shared backing array, so the host's own header
afterwards reads `[20,30,30]` — the update is observable through the
host's slice, not only by reading the view's stored value back. -/
theorem claim10_counterexample :
    (list_pop (0 : Int) heap3 ⟨host3, 0, false⟩ (some (.sint 0))).2.2 =
        .ok 10 ∧
      heap3.readS host3 = [10, 20, 30] ∧
      (list_pop (0 : Int) heap3 ⟨host3, 0, false⟩ (some (.sint 0))).1.readS
          host3 = [20, 30, 30] ∧
      (list_pop (0 : Int) heap3 ⟨host3, 0, false⟩ (some (.sint 0))).1.readS
          host3 ≠ heap3.readS host3 := by
  refine ⟨rfl, by decide, by decide, by decide⟩

/-! ## C7: the cycle in the module graph is detected -/

theorem lookE_setE (st : CState) (y x : String) (en0 : Entry) :
    lookE (setE st y en0) x = if y = x then some en0 else lookE st x := rfl

theorem get_zero (g : String → List String) (st : CState) (x : String) :
    get g 0 st x = (st, .error .fuelOut) := by
  unfold get
  rfl

theorem get_succ (g : String → List String) (fuel : Nat) (st : CState)
    (x : String) :
    get g (fuel + 1) st x =
      match lookE st x with
      | some e => if e.owner then (st, .error .cycle) else (st, e.res)
      | Option.none =>
          let st1 := setE st x ⟨true, .ok ()⟩
          let q := loadList g fuel st1 (g x)
          (setE q.1 x ⟨false, q.2⟩, q.2) := by
  unfold get
  rfl

theorem loadList_nil (g : String → List String) (fuel : Nat) (st : CState) :
    loadList g fuel st [] = (st, .ok ()) := by
  unfold loadList
  rfl

theorem loadList_cons (g : String → List String) (fuel : Nat) (st : CState)
    (d : String) (ds : List String) :
    loadList g fuel st (d :: ds) =
      match get g fuel st d with
      | (st', .ok _) => loadList g fuel st' ds
      | (st', .error e) => (st', .error (.wrap d e)) := by
  conv_lhs => unfold loadList

theorem extends_refl (st : CState) : Extends st st := fun _ en h => ⟨en, h⟩

theorem extends_trans {st1 st2 st3 : CState} (h1 : Extends st1 st2)
    (h2 : Extends st2 st3) : Extends st1 st3 := by
  intro x en h
  obtain ⟨en', h'⟩ := h1 x en h
  exact h2 x en' h'

theorem extends_setE (st : CState) (y : String) (en0 : Entry) :
    Extends st (setE st y en0) := by
  intro x en h
  by_cases hxy : y = x
  · exact ⟨en0, by rw [lookE_setE, if_pos hxy]⟩
  · exact ⟨en, by rw [lookE_setE, if_neg hxy]; exact h⟩

theorem extends_isNone {st st' : CState} (h : Extends st st') (x : String)
    (hn : (lookE st' x).isNone = true) : (lookE st x).isNone = true := by
  rcases hl : lookE st x with _ | en
  · rfl
  · obtain ⟨en', he⟩ := h x en hl
    rw [he] at hn
    simp at hn

theorem missing_cons (R : List String) (r : String) (st : CState) :
    missing (r :: R) st =
      (if (lookE st r).isNone then 1 else 0) + missing R st := by
  unfold missing
  rw [List.filter_cons]
  by_cases hr : (lookE st r).isNone
  · rw [if_pos hr, if_pos hr, List.length_cons]
    omega
  · rw [if_neg hr, if_neg hr]
    omega

theorem missing_mono (R : List String) (st st' : CState)
    (h : Extends st st') : missing R st' ≤ missing R st := by
  induction R with
  | nil => exact Nat.le_refl _
  | cons r R ih =>
      rw [missing_cons, missing_cons]
      by_cases hr : (lookE st' r).isNone = true
      · have h2 := extends_isNone h r hr
        rw [if_pos hr, if_pos h2]
        omega
      · by_cases hr2 : (lookE st r).isNone = true
        · rw [if_neg hr, if_pos hr2]
          omega
        · rw [if_neg hr, if_neg hr2]
          omega

theorem missing_setE_lt (R : List String) (st : CState) (x : String)
    (en0 : Entry) (hx : x ∈ R) (hn : lookE st x = Option.none) :
    missing R (setE st x en0) < missing R st := by
  have hxnew : (lookE (setE st x en0) x).isNone = false := by
    rw [lookE_setE, if_pos rfl]
    rfl
  induction R with
  | nil => cases hx
  | cons r R ih =>
      rw [missing_cons, missing_cons]
      by_cases hrx : x = r
      · subst hrx
        rw [hxnew, hn]
        have hm := missing_mono R st (setE st x en0) (extends_setE st x en0)
        rw [if_neg (show ¬(false = true) from by decide),
          if_pos (show (Option.none : Option Entry).isNone = true from rfl)]
        omega
      · have hlr : lookE (setE st x en0) r = lookE st r := by
          rw [lookE_setE, if_neg hrx]
        rw [hlr]
        have hx2 : x ∈ R := by
          rcases List.mem_cons.mp hx with h | h
          · exact absurd h hrx
          · exact h
        have hih := ih hx2
        by_cases hc : (lookE st r).isNone = true
        · rw [if_pos hc]
          omega
        · rw [if_neg hc]
          omega

theorem goodErr_ok : GoodErr (Except.ok ()) := by
  intro e he
  exact Except.noConfusion he

theorem goodErr_cycle : GoodErr (Except.error LoadErr.cycle) := by
  intro e he
  cases he
  rfl

theorem goodErr_wrap (d : String) (e : LoadErr)
    (h : e.root = LoadErr.cycle) :
    GoodErr (Except.error (.wrap d e)) := by
  intro e2 he2
  cases he2
  exact h

theorem noCycOk_setE (m : String) (p : List String) (st : CState)
    (y : String) (en0 : Entry) (hst : NoCycOk m p st)
    (hen : y ∈ m :: p →
      en0.owner = true ∨
        ∃ e, en0.res = Except.error e ∧ e.root = LoadErr.cycle) :
    NoCycOk m p (setE st y en0) := by
  intro c hc en hlk
  rw [lookE_setE] at hlk
  by_cases hyc : y = c
  · rw [if_pos hyc] at hlk
    cases hlk
    exact hen (hyc ▸ hc)
  · rw [if_neg hyc] at hlk
    exact hst c hc en hlk

theorem goodSt_setE (st : CState) (y : String) (en0 : Entry)
    (hst : GoodSt st) (hen : GoodErr en0.res) : GoodSt (setE st y en0) := by
  intro x en hlk
  rw [lookE_setE] at hlk
  by_cases hyx : y = x
  · rw [if_pos hyx] at hlk
    cases hlk
    exact hen
  · rw [if_neg hyx] at hlk
    exact hst x en hlk

/-- Along a relation chain from `a` that ends in `t`, every node of
`a :: l` (all but the final `t`) has a successor inside `a :: (l ++ [t])`. -/
theorem chain_mem_succ {α : Type} (r : α → α → Prop) :
    ∀ (l : List α) (a t : α), List.Chain r a (l ++ [t]) →
      ∀ x, x ∈ a :: l → ∃ y, y ∈ a :: (l ++ [t]) ∧ r x y := by
  intro l
  induction l with
  | nil =>
      intro a t hch x hx
      rw [List.nil_append] at hch
      obtain ⟨hat, _⟩ := List.chain_cons.mp hch
      have hx2 : x = a := by simpa using hx
      subst hx2
      exact ⟨t, by simp, hat⟩
  | cons b l ih =>
      intro a t hch x hx
      rw [List.cons_append] at hch
      obtain ⟨hab, hch2⟩ := List.chain_cons.mp hch
      rcases List.mem_cons.mp hx with h | h
      · subst h
        exact ⟨b, by simp, hab⟩
      · obtain ⟨y, hy, hr⟩ := ih b t hch2 x h
        refine ⟨y, ?_, hr⟩
        rcases List.mem_cons.mp hy with h2 | h2
        · subst h2
          simp
        · simp [List.cons_append, List.mem_cons, List.mem_append]
          rcases List.mem_append.mp h2 with h3 | h3
          · simp [h3]
          · simp [List.mem_singleton.mp h3]

/-- The master invariant of a cache run: starting from a state in which no
cycle member is stored finished-ok and all stored outcomes are good, every
`get`/`loadList` step preserves those invariants, only adds entries, and
returns a good outcome; a `get` of a cycle member returns a cycle-rooted
error.  `SC` says every cycle member has a `g`-successor in the cycle, `CL`
that `R` is closed under `g`. -/
theorem cache_master (g : String → List String) (m : String)
    (p R : List String)
    (SC : ∀ c, c ∈ m :: p → ∃ c', c' ∈ g c ∧ c' ∈ m :: p)
    (CL : ∀ x, x ∈ R → ∀ d, d ∈ g x → d ∈ R) :
    ∀ fuel, GetPost g m p R fuel ∧ LoadPost g m p R fuel := by
  intro fuel
  induction fuel with
  | zero =>
      constructor
      · intro st x _ _ _ hfm
        exact absurd hfm (Nat.not_lt_zero _)
      · intro st ds _ _ _ hfm
        exact absurd hfm (Nat.not_lt_zero _)
  | succ fuel ih =>
      have hget : GetPost g m p R (fuel + 1) := by
        intro st x hnc hgs hxR hfm
        rw [get_succ]
        rcases hl : lookE st x with _ | en
        · dsimp only
          have hnc1 : NoCycOk m p (setE st x ⟨true, Except.ok ()⟩) :=
            noCycOk_setE m p st x _ hnc (fun _ => Or.inl rfl)
          have hgs1 : GoodSt (setE st x ⟨true, Except.ok ()⟩) :=
            goodSt_setE st x _ hgs goodErr_ok
          have hd1 := missing_setE_lt R st x ⟨true, Except.ok ()⟩ hxR hl
          have hfm1 : missing R (setE st x ⟨true, Except.ok ()⟩) < fuel := by
            omega
          obtain ⟨⟨hncL, hgsL, hexL, hmiL, hgeL⟩, hcycL⟩ :=
            ih.2 (setE st x ⟨true, Except.ok ()⟩) (g x) hnc1 hgs1
              (CL x hxR) hfm1
          have hxcyc : x ∈ m :: p →
              ∃ e, (loadList g fuel (setE st x ⟨true, Except.ok ()⟩)
                  (g x)).2 = Except.error e ∧ e.root = LoadErr.cycle := by
            intro hxm
            obtain ⟨c', hc'g, hc'm⟩ := SC x hxm
            exact hcycL ⟨c', hc'g, hc'm⟩
          refine ⟨⟨?_, ?_, ?_, ?_, hgeL⟩, hxcyc⟩
          · exact noCycOk_setE m p _ x _ hncL
              (fun hxm => Or.inr (hxcyc hxm))
          · exact goodSt_setE _ x _ hgsL hgeL
          · exact extends_trans
              (extends_trans (extends_setE st x ⟨true, Except.ok ()⟩) hexL)
              (extends_setE _ x _)
          · dsimp only
            have h3 := missing_mono R _ _
              (extends_setE (loadList g fuel
                (setE st x ⟨true, Except.ok ()⟩) (g x)).1 x
                ⟨false, (loadList g fuel (setE st x ⟨true, Except.ok ()⟩)
                  (g x)).2⟩)
            omega
        · dsimp only
          rcases en with ⟨ob, r⟩
          cases ob with
          | true =>
              rw [if_pos rfl]
              refine ⟨⟨hnc, hgs, extends_refl st, Nat.le_refl _,
                goodErr_cycle⟩, ?_⟩
              intro _
              exact ⟨LoadErr.cycle, rfl, rfl⟩
          | false =>
              rw [if_neg (show ¬(false = true) from by decide)]
              have hge : GoodErr r := hgs x ⟨false, r⟩ hl
              refine ⟨⟨hnc, hgs, extends_refl st, Nat.le_refl _, hge⟩, ?_⟩
              intro hxm
              rcases hnc x hxm ⟨false, r⟩ hl with how | ⟨e, her, hroot⟩
              · simp at how
              · exact ⟨e, her, hroot⟩
      refine ⟨hget, ?_⟩
      intro st ds
      induction ds generalizing st with
      | nil =>
          intro hnc hgs _ _
          rw [loadList_nil]
          refine ⟨⟨hnc, hgs, extends_refl st, Nat.le_refl _, goodErr_ok⟩,
            ?_⟩
          rintro ⟨d, hd, _⟩
          cases hd
      | cons d ds ihds =>
          intro hnc hgs hds hfm
          rw [loadList_cons]
          obtain ⟨⟨hnc1, hgs1, hex1, hmi1, hge1⟩, hcyc1⟩ :=
            hget st d hnc hgs (hds d (List.mem_cons_self d ds)) hfm
          rcases hr : get g (fuel + 1) st d with ⟨st', r⟩
          rw [hr] at hnc1 hgs1 hex1 hmi1 hge1 hcyc1
          rcases r with e | u
          · dsimp only at hnc1 hgs1 hex1 hmi1 hge1 hcyc1 ⊢
            have hroot : e.root = LoadErr.cycle := hge1 e rfl
            refine ⟨⟨hnc1, hgs1, hex1, hmi1, goodErr_wrap d e hroot⟩, ?_⟩
            intro _
            exact ⟨.wrap d e, rfl, hroot⟩
          · dsimp only at hnc1 hgs1 hex1 hmi1 hge1 hcyc1 ⊢
            have hfm2 : missing R st' < fuel + 1 := by omega
            obtain ⟨⟨hnc2, hgs2, hex2, hmi2, hge2⟩, hcyc2⟩ :=
              ihds st' hnc1 hgs1
                (fun d2 hd2 => hds d2 (List.mem_cons_of_mem d hd2)) hfm2
            refine ⟨⟨hnc2, hgs2, extends_trans hex1 hex2, by omega, hge2⟩,
              ?_⟩
            rintro ⟨d0, hd0, hd0m⟩
            rcases List.mem_cons.mp hd0 with hdd | hdd
            · subst hdd
              obtain ⟨e2, he2, _⟩ := hcyc1 hd0m
              exact Except.noConfusion he2
            · exact hcyc2 ⟨d0, hdd, hd0m⟩

/-- C7 (confirmed): for every module-load graph containing a cycle
(witnessed by a chain `m → … → m` of load edges) and any module `m` of the
cycle, a top-level `Load` of `m` — run with enough fuel relative to any
`g`-closed finite module universe `R`, so that the run cannot be cut off
early — returns a load error whose root cause is the cycle error (raised
when the walk reaches the still-owned entry of the requesting waiter),
rather than succeeding, reporting fuel exhaustion (non-termination), or
blocking. -/
theorem claim7_cycle_detected (g : String → List String) (m : String)
    (p R : List String) (fuel : Nat)
    (hcyc : List.Chain (fun a b => b ∈ g a) m (p ++ [m]))
    (hmR : m ∈ R)
    (hclo : ∀ x, x ∈ R → ∀ d, d ∈ g x → d ∈ R)
    (hfuel : R.length < fuel) :
    ∃ e, cacheLoad g fuel m = Except.error e ∧ e.root = LoadErr.cycle := by
  have SC : ∀ c, c ∈ m :: p → ∃ c', c' ∈ g c ∧ c' ∈ m :: p := by
    intro c hc
    obtain ⟨y, hy, hr⟩ :=
      chain_mem_succ (fun a b => b ∈ g a) p m m hcyc c hc
    refine ⟨y, hr, ?_⟩
    rcases List.mem_cons.mp hy with h | h
    · exact h ▸ List.mem_cons_self m p
    · rcases List.mem_append.mp h with h2 | h2
      · exact List.mem_cons_of_mem m h2
      · have h3 : y = m := List.mem_singleton.mp h2
        exact h3 ▸ List.mem_cons_self m p
  have hmiss0 : missing R ([] : CState) < fuel := by
    have h4 : missing R ([] : CState) ≤ R.length := by
      unfold missing
      exact List.length_filter_le _ _
    omega
  have hnc0 : NoCycOk m p ([] : CState) := by
    intro c _ en hlk
    exact Option.noConfusion hlk
  have hgs0 : GoodSt ([] : CState) := by
    intro x en hlk
    exact Option.noConfusion hlk
  obtain ⟨_, hcyc0⟩ :=
    (cache_master g m p R SC hclo fuel).1 [] m hnc0 hgs0 hmR hmiss0
  unfold cacheLoad
  exact hcyc0 (List.mem_cons_self m p)

/-- Witness for C7: in the two-module cycle `a loads b loads a`, a `Load`
of `"a"` with fuel 3 over the universe `{a, b}` fails with a cycle-rooted
error. -/
theorem claim7_cycle_detected_witness :
    (List.Chain (fun a b => b ∈ gAB a) "a" (["b"] ++ ["a"]) ∧
        "a" ∈ ["a", "b"] ∧ (["a", "b"] : List String).length < 3) ∧
      ∃ e, cacheLoad gAB 3 "a" = Except.error e ∧
        e.root = LoadErr.cycle :=
  ⟨⟨List.Chain.cons (by decide) (List.Chain.cons (by decide)
        List.Chain.nil), by decide, by decide⟩,
    claim7_cycle_detected gAB "a" ["b"] ["a", "b"] 3
      (List.Chain.cons (by decide) (List.Chain.cons (by decide)
        List.Chain.nil)) (by decide) (by decide) (by decide)⟩

end Starlight
